import Mathlib

/-
Verification of the canonical entity-resolution engine of the
UIDAI-Hackthon-2026 repository:

  * `backend/common/state_resolver.py` : `normalize_state_name`,
    `resolve_state`, `get_all_canonical_states`, and the three alias
    tables `ABBREVIATIONS`, `CANONICAL_STATES`, `SPELLING_VARIATIONS`
    plus the placeholder denylist `INVALID_STATES`;
  * `backend/common/district_normalizer.py` : the flat alias table
    `DISTRICT_NORMALIZATION_MAP`.

Embedding conventions.  Python strings are modelled as lists of
code points (`List Nat`).  The Python string methods used by the
source (`strip`, `upper`, `lower`, `title`, `isdigit`, `isalnum`,
`startswith`, substring containment `in`) are given their ASCII
semantics, which is exact for every string occurring in the tables
and in the claims.  The database query of `resolve_state` /
`get_all_canonical_states` (`session.query(UIDAIRecord.state)
.distinct()`) is modelled by an explicit list of raw state values
(the observed name set, in store order).  Raised `ValueError`s are
modelled by `Except` with a dedicated error type.
-/

/-- Python strings, modelled as lists of code points. -/
abbrev PyStr := List Nat

/-- Code points of a Lean string literal, used to write the tables. -/
def pys (s : String) : PyStr := s.data.map Char.toNat

/-- ASCII model of Python `str.isspace` on one character
(the characters removed by `str.strip()`). -/
def isSpaceB (c : Nat) : Bool :=
  decide (c = 32 ∨ c = 9 ∨ c = 10 ∨ c = 11 ∨ c = 12 ∨ c = 13)

/-- ASCII model of Python `str.upper` on one character. -/
def upperC (c : Nat) : Nat := if 97 ≤ c ∧ c ≤ 122 then c - 32 else c

/-- ASCII model of Python `str.lower` on one character. -/
def lowerC (c : Nat) : Nat := if 65 ≤ c ∧ c ≤ 90 then c + 32 else c

/-- ASCII model of Python `str.isalpha` (the cased characters). -/
def isAlphaB (c : Nat) : Bool :=
  decide ((65 ≤ c ∧ c ≤ 90) ∨ (97 ≤ c ∧ c ≤ 122))

/-- ASCII model of Python `str.isdigit` on one character. -/
def isDigitB (c : Nat) : Bool := decide (48 ≤ c ∧ c ≤ 57)

/-- ASCII model of Python `str.isalnum` on one character. -/
def isAlnumB (c : Nat) : Bool := isAlphaB c || isDigitB c

/-- Python `s.upper()`. -/
def pyUpper (s : PyStr) : PyStr := s.map upperC

/-- Python `s.lower()`. -/
def pyLower (s : PyStr) : PyStr := s.map lowerC

/-- Python `s.strip()`: drop leading and trailing whitespace. -/
def pyStrip (s : PyStr) : PyStr :=
  ((s.dropWhile isSpaceB).reverse.dropWhile isSpaceB).reverse

/-- Python `s.isdigit()`: nonempty and all digits. -/
def pyIsDigit (s : PyStr) : Bool := !s.isEmpty && s.all isDigitB

/-- Worker for Python `s.title()`.  The flag records whether the
previous character was cased (alphabetic): a cased character is
uppercased after an uncased one and lowercased otherwise. -/
def titleAux (b : Bool) : PyStr → PyStr
  | [] => []
  | c :: s =>
      (if isAlphaB c then (if b then lowerC c else upperC c) else c)
        :: titleAux (isAlphaB c) s

/-- Python `s.title()`. -/
def pyTitle (s : PyStr) : PyStr := titleAux false s

/-- Python `s.startswith(t)`: `startsWith s t` holds when `t` is a
prefix of `s`. -/
def startsWith : PyStr → PyStr → Bool
  | _, [] => true
  | [], _ :: _ => false
  | a :: s, b :: t => a == b && startsWith s t

/-- Python substring containment: `hasSub t s` models `t in s`. -/
def hasSub (t : PyStr) : PyStr → Bool
  | [] => t.isEmpty
  | c :: s => startsWith (c :: s) t || hasSub t s

/-- Python string `<` (lexicographic by code point). -/
def strLt : PyStr → PyStr → Bool
  | [], [] => false
  | [], _ :: _ => true
  | _ :: _, [] => false
  | a :: s, b :: t => a < b || (a == b && strLt s t)

/-- Python string `<=` (lexicographic by code point). -/
def strLe (a b : PyStr) : Bool := strLt a b || a == b

/-- The aggressive "stripped alphanumeric" form used by
`normalize_state_name`:
`''.join(c.upper() for c in normalized if c.isalnum())`
(state_resolver.py line 104). -/
def cleanStr (s : PyStr) : PyStr := (s.filter isAlnumB).map upperC

/-- `ABBREVIATIONS` of state_resolver.py (lines 5-41). -/
def ABBREVIATIONS : List (PyStr × PyStr) :=
  [ (pys "UP", pys "Uttar Pradesh"),
    (pys "MP", pys "Madhya Pradesh"),
    (pys "TN", pys "Tamil Nadu"),
    (pys "WB", pys "West Bengal"),
    (pys "AP", pys "Andhra Pradesh"),
    (pys "TS", pys "Telangana"),
    (pys "RJ", pys "Rajasthan"),
    (pys "GJ", pys "Gujarat"),
    (pys "MH", pys "Maharashtra"),
    (pys "DL", pys "Delhi"),
    (pys "KA", pys "Karnataka"),
    (pys "KL", pys "Kerala"),
    (pys "OR", pys "Odisha"),
    (pys "PB", pys "Punjab"),
    (pys "HR", pys "Haryana"),
    (pys "HP", pys "Himachal Pradesh"),
    (pys "JH", pys "Jharkhand"),
    (pys "CT", pys "Chhattisgarh"),
    (pys "UK", pys "Uttarakhand"),
    (pys "GA", pys "Goa"),
    (pys "AS", pys "Assam"),
    (pys "MN", pys "Manipur"),
    (pys "MZ", pys "Mizoram"),
    (pys "NL", pys "Nagaland"),
    (pys "TR", pys "Tripura"),
    (pys "AR", pys "Arunachal Pradesh"),
    (pys "SK", pys "Sikkim"),
    (pys "ML", pys "Meghalaya"),
    (pys "JK", pys "Jammu and Kashmir"),
    (pys "LA", pys "Ladakh"),
    (pys "CH", pys "Chandigarh"),
    (pys "PY", pys "Puducherry"),
    (pys "AN", pys "Andaman and Nicobar Islands"),
    (pys "LK", pys "Lakshadweep"),
    (pys "DD", pys "Dadra and Nagar Haveli and Daman and Diu") ]

/-- `CANONICAL_STATES` of state_resolver.py (lines 43-66). -/
def CANONICAL_STATES : List (PyStr × PyStr) :=
  [ (pys "DELHI", pys "Delhi"),
    (pys "NCT OF DELHI", pys "Delhi"),
    (pys "NATIONAL CAPITAL TERRITORY OF DELHI", pys "Delhi"),
    (pys "NEW DELHI", pys "Delhi"),
    (pys "DADRA AND NAGAR HAVELI",
      pys "Dadra and Nagar Haveli and Daman and Diu"),
    (pys "DAMAN AND DIU", pys "Dadra and Nagar Haveli and Daman and Diu"),
    (pys "DADRA & NAGAR HAVELI",
      pys "Dadra and Nagar Haveli and Daman and Diu"),
    (pys "DAMAN & DIU", pys "Dadra and Nagar Haveli and Daman and Diu"),
    (pys "DNH", pys "Dadra and Nagar Haveli and Daman and Diu"),
    (pys "DD", pys "Dadra and Nagar Haveli and Daman and Diu"),
    (pys "ORISSA", pys "Odisha"),
    (pys "PONDICHERRY", pys "Puducherry"),
    (pys "UTTARANCHAL", pys "Uttarakhand"),
    (pys "ANDAMAN & NICOBAR", pys "Andaman and Nicobar Islands"),
    (pys "ANDAMAN & NICOBAR ISLANDS", pys "Andaman and Nicobar Islands") ]

/-- `INVALID_STATES` of state_resolver.py (lines 68-71). -/
def INVALID_STATES : List PyStr :=
  [ pys "", pys "NA", pys "N/A", pys "UNKNOWN", pys "NULL", pys "-",
    pys "0", pys "NONE", pys "NOT AVAILABLE", pys "NOT SPECIFIED" ]

/-- `SPELLING_VARIATIONS` of state_resolver.py (lines 107-139). -/
def SPELLING_VARIATIONS : List (PyStr × PyStr) :=
  [ (pys "WESTBENGAL", pys "West Bengal"),
    (pys "WESTBANGAL", pys "West Bengal"),
    (pys "WESTBENGOL", pys "West Bengal"),
    (pys "TAMILNADU", pys "Tamil Nadu"),
    (pys "UTTARPRADESH", pys "Uttar Pradesh"),
    (pys "MADHYAPRADESH", pys "Madhya Pradesh"),
    (pys "ANDHRAPRADESH", pys "Andhra Pradesh"),
    (pys "ARUNACHALPRADESH", pys "Arunachal Pradesh"),
    (pys "HIMACHALPRADESH", pys "Himachal Pradesh"),
    (pys "CHHATISGARH", pys "Chhattisgarh"),
    (pys "CHATTISGARH", pys "Chhattisgarh"),
    (pys "CHHATTISGARH", pys "Chhattisgarh"),
    (pys "JHARKAND", pys "Jharkhand"),
    (pys "UTTARAKHAND", pys "Uttarakhand"),
    (pys "UTTARANCHAL", pys "Uttarakhand"),
    (pys "ORISSA", pys "Odisha"),
    (pys "PONDICHERRY", pys "Puducherry"),
    (pys "ANDAMANANDNICOBARISLANDS", pys "Andaman and Nicobar Islands"),
    (pys "ANDAMANANDNICOBAR", pys "Andaman and Nicobar Islands"),
    (pys "ANDAMANNICOBAR", pys "Andaman and Nicobar Islands"),
    (pys "DADRAANDNAGARHAVELI",
      pys "Dadra and Nagar Haveli and Daman and Diu"),
    (pys "DADRAANDNAGARHAVELANDDAMANANDDIU",
      pys "Dadra and Nagar Haveli and Daman and Diu"),
    (pys "DAMANANDDIU", pys "Dadra and Nagar Haveli and Daman and Diu"),
    (pys "DADRANAGARHAVELI",
      pys "Dadra and Nagar Haveli and Daman and Diu"),
    (pys "JAMMUANDKASHMIR", pys "Jammu and Kashmir"),
    (pys "JAMMUKASHMIR", pys "Jammu and Kashmir") ]

/-- Python dict lookup on an association list (first matching key). -/
def tblLookup : List (PyStr × PyStr) → PyStr → Option PyStr
  | [], _ => none
  | (k, v) :: rest, key => if k = key then some v else tblLookup rest key

/-- The canonical target of the merged union territory. -/
def dadraTarget : PyStr := pys "Dadra and Nagar Haveli and Daman and Diu"

/-- The multi-token containment test of state_resolver.py lines 150-152:
all five of DADRA, NAGAR, HAVELI, DAMAN, DIU occur in the uppercased
name. -/
def dadraTest (u : PyStr) : Bool :=
  hasSub (pys "DADRA") u && hasSub (pys "NAGAR") u &&
  hasSub (pys "HAVELI") u && hasSub (pys "DAMAN") u && hasSub (pys "DIU") u

/-- The test `normalized.upper().startswith("THE ")` of
state_resolver.py line 98. -/
def theTest (s : PyStr) : Bool := decide (pyUpper (s.take 4) = pys "THE ")

/-- The cleaning stage of `normalize_state_name` (lines 87, 98-99):
strip whitespace, then drop a leading "The " (case-insensitively) and
re-strip.  Internal whitespace is left untouched by the source. -/
def cleaned (x : PyStr) : PyStr :=
  if theTest (pyStrip x) then pyStrip ((pyStrip x).drop 4) else pyStrip x

/-- The lookup cascade of `normalize_state_name` (lines 101-156),
applied to the cleaned name: abbreviations, canonical variants,
stripped-alphanumeric spelling variations, the Dadra multi-token
test, and finally the title-cased fallback. -/
def lookupStages (n : PyStr) : Option PyStr :=
  match tblLookup ABBREVIATIONS (pyUpper n) with
  | some v => some v
  | none =>
    match tblLookup CANONICAL_STATES (pyUpper n) with
    | some v => some v
    | none =>
      match tblLookup SPELLING_VARIATIONS (cleanStr n) with
      | some v => some v
      | none =>
        if dadraTest (pyUpper n) then some dadraTarget
        else some (pyTitle n)

/-- `normalize_state_name` of state_resolver.py (lines 73-156).
Returns `none` where the Python function returns `None` (empty input,
placeholder token, purely numeric input). -/
def normalize_state_name (state_name : PyStr) : Option PyStr :=
  if state_name.isEmpty then none
  else
    if pyUpper (pyStrip state_name) ∈ INVALID_STATES then none
    else if pyIsDigit (pyStrip state_name) then none
    else lookupStages (cleaned state_name)

/-- The `ValueError`s raised by `resolve_state`. -/
inductive ResolveError : Type
  | stateRequired : ResolveError
  | invalidInput : PyStr → ResolveError
deriving DecidableEq

/-- The list `db_states` built by `resolve_state` (lines 183-188):
normalize every non-falsy distinct raw state value and drop falsy
results.  The store is the observed name set in query order. -/
def dbStates (store : List PyStr) : List PyStr :=
  store.filterMap (fun raw =>
    if raw.isEmpty then none
    else
      match normalize_state_name raw with
      | none => none
      | some t => if t.isEmpty then none else some t)

/-- `resolve_state` of state_resolver.py (lines 159-202): normalize
the user input, then scan the normalized observed names for an exact
case-insensitive match, then for a substring match, and otherwise
return the normalized form itself. -/
def resolve_state (store : List PyStr) (user_input : PyStr) :
    Except ResolveError PyStr :=
  if user_input.isEmpty then .error .stateRequired
  else
    match normalize_state_name user_input with
    | none => .error (.invalidInput user_input)
    | some normalized =>
      if normalized.isEmpty then .error (.invalidInput user_input)
      else
        match (dbStates store).find?
            (fun st => decide (pyLower st = pyLower normalized)) with
        | some st => .ok st
        | none =>
          match (dbStates store).find?
              (fun st => hasSub (pyLower normalized) (pyLower st)) with
          | some st => .ok st
          | none => .ok normalized

/-- One step of the set-accumulation of `get_all_canonical_states`
(lines 218-222): add the normalization when it is truthy and new. -/
def addState (acc : List PyStr) (st : PyStr) : List PyStr :=
  match normalize_state_name st with
  | some c => if c.isEmpty then acc else if c ∈ acc then acc else acc ++ [c]
  | none => acc

/-- Sorted insertion for Python `sorted` on strings. -/
def insertSorted (a : PyStr) : List PyStr → List PyStr
  | [] => [a]
  | b :: l => if strLe a b then a :: b :: l else b :: insertSorted a l

/-- Python `sorted` on a list of strings (insertion sort; Python
`sorted` is a stable comparison sort over `<`, so any correct sort
yields the same output). -/
def sortStrs : List PyStr → List PyStr
  | [] => []
  | a :: l => insertSorted a (sortStrs l)

/-- `get_all_canonical_states` of state_resolver.py (lines 205-229):
normalize every non-falsy distinct raw value, collect the truthy
results into a set, and return them sorted. -/
def get_all_canonical_states (store : List PyStr) : List PyStr :=
  sortStrs ((store.filter (fun s => !s.isEmpty)).foldl addState [])

/-- The denylist exactly as enumerated by the claim and by spec §4.1
(to be compared with the behaviour of the source functions). -/
def specPlaceholderDenylist : List PyStr :=
  [ pys "", pys "NA", pys "N/A", pys "UNKNOWN", pys "NULL", pys "-",
    pys "0", pys "NONE", pys "NOT AVAILABLE", pys "NOT SPECIFIED" ]

/-- The union of the values of the three state alias tables: the
canonical state names (the image of the resolution mapping). -/
def canonicalImage : List PyStr :=
  ABBREVIATIONS.map Prod.snd ++ CANONICAL_STATES.map Prod.snd ++
    SPELLING_VARIATIONS.map Prod.snd

/-- `DISTRICT_NORMALIZATION_MAP` of district_normalizer.py
(lines 8-269), transcribed entry for entry. -/
def DISTRICT_NORMALIZATION_MAP : List (String × String) :=
  [ ("Nicobars", "Nicobar"),
    ("Ananthapur", "Anantapur"),
    ("Ananthapuramu", "Anantapur"),
    ("chittoor", "Chittoor"),
    ("K.V.Rangareddy", "Rangareddy"),
    ("K.v. Rangareddy", "Rangareddy"),
    ("Karim Nagar", "Karimnagar"),
    ("Mahabub Nagar", "Mahabubnagar"),
    ("Mahbubnagar", "Mahabubnagar"),
    ("rangareddi", "Rangareddy"),
    ("Spsr Nellore", "Sri Potti Sriramulu Nellore"),
    ("Visakhapatanam", "Visakhapatnam"),
    ("Sibsagar", "Sivasagar"),
    ("Aurangabad(BH)", "Aurangabad"),
    ("Aurangabad(bh)", "Aurangabad"),
    ("Purba Champaran", "East Champaran"),
    ("Purbi Champaran", "East Champaran"),
    ("Pashchim Champaran", "West Champaran"),
    ("Purnia", "Purnea"),
    ("Samstipur", "Samastipur"),
    ("Sheikpura", "Sheikhpura"),
    ("Monghyr", "Munger"),
    ("Janjgir - Champa", "Janjgir Champa"),
    ("Janjgir-champa", "Janjgir Champa"),
    ("Gaurella Pendra Marwahi", "Gaurela-pendra-marwahi"),
    ("Mohalla-Manpur-Ambagarh Chowki", "Mohla-Manpur-Ambagarh Chouki"),
    ("Kabeerdham", "Kawardha"),
    ("Dadra & Nagar Haveli", "Dadra and Nagar Haveli"),
    ("Dadra And Nagar Haveli", "Dadra and Nagar Haveli"),
    ("North East   *", "North East Delhi"),
    ("North East", "North East Delhi"),
    ("Ahmadabad", "Ahmedabad"),
    ("Banaskantha", "Banas Kantha"),
    ("Sabarkantha", "Sabar Kantha"),
    ("Panchmahals", "Panch Mahals"),
    ("Panchmhals", "Panch Mahals"),
    ("Dahod", "Dohad"),
    ("The Dangs", "Dang"),
    ("Surendra Nagar", "Surendranagar"),
    ("Jhajjar *", "Jhajjar"),
    ("Gurgaon", "Gurugram"),
    ("Mewat", "Nuh"),
    ("Yamunanagar", "Yamuna Nagar"),
    ("Lahaul and Spiti", "Lahul and Spiti"),
    ("Lahul & Spiti", "Lahul and Spiti"),
    ("Badgam", "Budgam"),
    ("Bandipore", "Bandipur"),
    ("Leh (ladakh)", "Leh"),
    ("Rajauri", "Rajouri"),
    ("punch", "Punch"),
    ("Shupiyan", "Shopian"),
    ("Bokaro *", "Bokaro"),
    ("Garhwa *", "Garhwa"),
    ("Hazaribag", "Hazaribagh"),
    ("Kodarma", "Koderma"),
    ("Pakaur", "Pakur"),
    ("Palamau", "Palamu"),
    ("Pashchimi Singhbhum", "West Singhbhum"),
    ("Purbi Singhbhum", "East Singhbhum"),
    ("East Singhbum", "East Singhbhum"),
    ("Sahebganj", "Sahibganj"),
    ("Seraikela-kharsawan", "Seraikela-Kharsawan"),
    ("Bagalkot *", "Bagalkot"),
    ("Bangalore", "Bengaluru Urban"),
    ("Bengaluru", "Bengaluru Urban"),
    ("Bengaluru South", "Bengaluru Urban"),
    ("Belagavi", "Belgaum"),
    ("Bellary", "Ballari"),
    ("Bijapur", "Vijayapura"),
    ("Bijapur(KAR)", "Vijayapura"),
    ("Chamarajanagar", "Chamarajanagar"),
    ("Chamarajanagar *", "Chamarajanagar"),
    ("Chamrajanagar", "Chamarajanagar"),
    ("Chamrajnagar", "Chamarajanagar"),
    ("Chickmagalur", "Chikkamagaluru"),
    ("Chikmagalur", "Chikkamagaluru"),
    ("Davangere", "Davanagere"),
    ("Gadag *", "Gadag"),
    ("Gulbarga", "Kalaburagi"),
    ("Hasan", "Hassan"),
    ("Haveri *", "Haveri"),
    ("Mysore", "Mysuru"),
    ("Ramanagar", "Ramanagara"),
    ("Shimoga", "Shivamogga"),
    ("Tumkur", "Tumakuru"),
    ("Udupi *", "Udupi"),
    ("yadgir", "Yadgir"),
    ("Kasargod", "Kasaragod"),
    ("Ashok Nagar", "Ashoknagar"),
    ("Harda *", "Harda"),
    ("Narsimhapur", "Narsinghpur"),
    ("Ahmadnagar", "Ahmednagar"),
    ("Ahmed Nagar", "Ahmednagar"),
    ("Ahilyanagar", "Ahmednagar"),
    ("Aurangabad", "Chhatrapati Sambhajinagar"),
    ("Chatrapati Sambhaji Nagar", "Chhatrapati Sambhajinagar"),
    ("Bid", "Beed"),
    ("Buldana", "Buldhana"),
    ("Gondiya", "Gondia"),
    ("Gondiya *", "Gondia"),
    ("Hingoli *", "Hingoli"),
    ("Mumbai( Sub Urban )", "Mumbai Suburban"),
    ("Nandurbar *", "Nandurbar"),
    ("Osmanabad", "Dharashiv"),
    ("Raigarh", "Raigad"),
    ("Raigarh(MH)", "Raigad"),
    ("Washim *", "Washim"),
    ("Mammit", "Mamit"),
    ("ANGUL", "Angul"),
    ("ANUGUL", "Angul"),
    ("Anugal", "Angul"),
    ("Anugul", "Angul"),
    ("Baleshwar", "Balasore"),
    ("Baleswar", "Balasore"),
    ("Baudh", "Boudh"),
    ("JAJPUR", "Jajpur"),
    ("jajpur", "Jajpur"),
    ("Jajapur", "Jajpur"),
    ("Jagatsinghapur", "Jagatsinghpur"),
    ("Kendrapara *", "Kendrapara"),
    ("Khorda", "Khordha"),
    ("Nabarangapur", "Nabarangpur"),
    ("NUAPADA", "Nuapada"),
    ("Sonapur", "Subarnapur"),
    ("Sundergarh", "Sundargarh"),
    ("Pondicherry", "Puducherry"),
    ("Ferozepur", "Firozpur"),
    ("Nawanshahr", "Shaheed Bhagat Singh Nagar"),
    ("S.A.S Nagar", "SAS Nagar (Mohali)"),
    ("S.A.S Nagar(Mohali)", "SAS Nagar (Mohali)"),
    ("Muktsar", "Sri Muktsar Sahib"),
    ("Tarn Taran", "Tarn Taran"),
    ("Chittaurgarh", "Chittorgarh"),
    ("Deeg ", "Deeg"),
    ("Dhaulpur", "Dholpur"),
    ("Jalore", "Jalor"),
    ("Jhunjhunun", "Jhunjhunu"),
    ("Ganganagar", "Sri Ganganagar"),
    ("East", "East Sikkim"),
    ("North", "North Sikkim"),
    ("South", "South Sikkim"),
    ("West", "West Sikkim"),
    ("Mangan", "North Sikkim"),
    ("Namchi", "South Sikkim"),
    ("Kanchipuram", "Kancheepuram"),
    ("Kanniyakumari", "Kanyakumari"),
    ("Namakkal   *", "Namakkal"),
    ("Tirupathur", "Tirupattur"),
    ("Tuticorin", "Thoothukkudi"),
    ("Tiruvallur", "Thiruvallur"),
    ("Tiruvarur", "Thiruvarur"),
    ("Viluppuram", "Villupuram"),
    ("Jangoan", "Jangaon"),
    ("Medchal Malkajgiri", "Medchal-malkajgiri"),
    ("Medchal?malkajgiri", "Medchal-malkajgiri"),
    ("Medchal−malkajgiri", "Medchal-malkajgiri"),
    ("Ranga Reddy", "Rangareddy"),
    ("Warangal (urban)", "Warangal Urban"),
    ("Dhalai  *", "Dhalai"),
    ("Allahabad", "Prayagraj"),
    ("Baghpat", "Bagpat"),
    ("Bara Banki", "Barabanki"),
    ("Bulandshahar", "Bulandshahr"),
    ("Faizabad", "Ayodhya"),
    ("Kushi Nagar", "Kushinagar"),
    ("Kushinagar *", "Kushinagar"),
    ("Maharajganj", "Maharajganj"),
    ("Mahrajganj", "Maharajganj"),
    ("Rae Bareli", "Raebareli"),
    ("Shrawasti", "Shravasti"),
    ("Siddharth Nagar", "Siddharthnagar"),
    ("Hardwar", "Haridwar"),
    ("Garhwal", "Pauri Garhwal"),
    ("24 Paraganas North", "North 24 Parganas"),
    ("24 Paraganas South", "South 24 Parganas"),
    ("Barddhaman", "Bardhaman"),
    ("Burdwan", "Bardhaman"),
    ("Coochbehar", "Cooch Behar"),
    ("Koch Bihar", "Cooch Behar"),
    ("Darjiling", "Darjeeling"),
    ("Dinajpur Dakshin", "Dakshin Dinajpur"),
    ("South Dinajpur", "Dakshin Dinajpur"),
    ("Dinajpur Uttar", "Uttar Dinajpur"),
    ("North Dinajpur", "Uttar Dinajpur"),
    ("East Midnapur", "East Midnapore"),
    ("HOOGHLY", "Hooghly"),
    ("Hooghiy", "Hooghly"),
    ("Hugli", "Hooghly"),
    ("hooghly", "Hooghly"),
    ("HOWRAH", "Howrah"),
    ("Haora", "Howrah"),
    ("Hawrah", "Howrah"),
    ("KOLKATA", "Kolkata"),
    ("MALDA", "Malda"),
    ("Maldah", "Malda"),
    ("Medinipur West", "West Medinipur"),
    ("West Midnapore", "West Medinipur"),
    ("NADIA", "Nadia"),
    ("nadia", "Nadia"),
    ("North Twenty Four Parganas", "North 24 Parganas"),
    ("South 24 Pargana", "South 24 Parganas"),
    ("South 24 parganas", "South 24 Parganas"),
    ("South Twenty Four Parganas", "South 24 Parganas"),
    ("Puruliya", "Purulia") ]

/-- Python dict lookup on the district table (first matching key;
the keys are pairwise distinct). -/
def districtLookup : List (String × String) → String → Option String
  | [], _ => none
  | (k, v) :: rest, key => if k = key then some v else districtLookup rest key

/-- Modelled from the spec: the repository stores only the table
`DISTRICT_NORMALIZATION_MAP`; the lookup function `normalizeDistrict`
described in spec §4.3 is not present under the sources.  Per the
spec it is an exact-string lookup in the flat alias table, not
disambiguated by state, returning the input unchanged when absent. -/
def normalizeDistrict (_rawState : String) (rawDistrict : String) : String :=
  match districtLookup DISTRICT_NORMALIZATION_MAP rawDistrict with
  | some v => v
  | none => rawDistrict

set_option maxRecDepth 100000
set_option maxHeartbeats 1000000

/-! ### Character-level facts (ASCII case arithmetic) -/

theorem upperC_lowerC (c : Nat) : upperC (lowerC c) = upperC c := by
  unfold upperC lowerC; split_ifs <;> omega

theorem lowerC_upperC (c : Nat) : lowerC (upperC c) = lowerC c := by
  unfold upperC lowerC; split_ifs <;> omega

theorem lowerC_lowerC (c : Nat) : lowerC (lowerC c) = lowerC c := by
  unfold lowerC; split_ifs <;> omega

theorem upperC_upperC (c : Nat) : upperC (upperC c) = upperC c := by
  unfold upperC; split_ifs <;> omega

theorem isAlphaB_upperC (c : Nat) : isAlphaB (upperC c) = isAlphaB c := by
  unfold isAlphaB upperC; split_ifs <;> rw [decide_eq_decide] <;> omega

theorem isAlphaB_lowerC (c : Nat) : isAlphaB (lowerC c) = isAlphaB c := by
  unfold isAlphaB lowerC; split_ifs <;> rw [decide_eq_decide] <;> omega

theorem isDigitB_upperC (c : Nat) : isDigitB (upperC c) = isDigitB c := by
  unfold isDigitB upperC; split_ifs <;> rw [decide_eq_decide] <;> omega

theorem isDigitB_lowerC (c : Nat) : isDigitB (lowerC c) = isDigitB c := by
  unfold isDigitB lowerC; split_ifs <;> rw [decide_eq_decide] <;> omega

theorem isAlnumB_upperC (c : Nat) : isAlnumB (upperC c) = isAlnumB c := by
  unfold isAlnumB; rw [isAlphaB_upperC, isDigitB_upperC]

theorem isAlnumB_lowerC (c : Nat) : isAlnumB (lowerC c) = isAlnumB c := by
  unfold isAlnumB; rw [isAlphaB_lowerC, isDigitB_lowerC]

theorem isSpaceB_upperC (c : Nat) : isSpaceB (upperC c) = isSpaceB c := by
  unfold isSpaceB upperC; split_ifs <;> rw [decide_eq_decide] <;> omega

theorem isSpaceB_lowerC (c : Nat) : isSpaceB (lowerC c) = isSpaceB c := by
  unfold isSpaceB lowerC; split_ifs <;> rw [decide_eq_decide] <;> omega

theorem lowerC_of_not_alpha (c : Nat) (h : isAlphaB c = false) :
    lowerC c = c := by
  unfold isAlphaB at h; unfold lowerC
  rw [decide_eq_false_iff_not] at h; split_ifs with h2 <;> omega

theorem upperC_of_not_alpha (c : Nat) (h : isAlphaB c = false) :
    upperC c = c := by
  unfold isAlphaB at h; unfold upperC
  rw [decide_eq_false_iff_not] at h; split_ifs with h2 <;> omega

theorem not_alpha_of_space (c : Nat) (h : isSpaceB c = true) :
    isAlphaB c = false := by
  unfold isSpaceB at h; unfold isAlphaB
  rw [decide_eq_true_eq] at h; rw [decide_eq_false_iff_not]; omega

/-! ### Case maps on strings -/

theorem pyUpper_pyLower (s : PyStr) : pyUpper (pyLower s) = pyUpper s := by
  induction s with
  | nil => rfl
  | cons c s ih =>
      simp only [pyUpper, pyLower, List.map_cons] at ih ⊢
      rw [upperC_lowerC, ih]

theorem pyLower_pyUpper (s : PyStr) : pyLower (pyUpper s) = pyLower s := by
  induction s with
  | nil => rfl
  | cons c s ih =>
      simp only [pyUpper, pyLower, List.map_cons] at ih ⊢
      rw [lowerC_upperC, ih]

theorem cleanStr_pyLower (s : PyStr) : cleanStr (pyLower s) = cleanStr s := by
  induction s with
  | nil => rfl
  | cons c s ih =>
      simp only [cleanStr, pyLower, List.map_cons, List.filter_cons] at ih ⊢
      rw [isAlnumB_lowerC]
      by_cases h : isAlnumB c = true
      · simp only [h, if_pos, List.map_cons, upperC_lowerC]
        exact congrArg _ ih
      · simp only [h, if_neg, Bool.false_eq_true, if_false]
        exact ih

theorem pyIsDigit_pyLower (s : PyStr) : pyIsDigit (pyLower s) = pyIsDigit s := by
  unfold pyIsDigit
  have h1 : (pyLower s).isEmpty = s.isEmpty := by
    cases s <;> simp [pyLower]
  have h2 : ∀ l : List Nat, (l.map lowerC).all isDigitB = l.all isDigitB := by
    intro l
    induction l with
    | nil => rfl
    | cons c l ih => simp only [List.map_cons, List.all_cons, isDigitB_lowerC, ih]
  rw [h1, pyLower, h2]

/-! ### startsWith and hasSub -/

theorem startsWith_iff (s t : PyStr) :
    startsWith s t = true ↔ ∃ r, s = t ++ r := by
  induction t generalizing s with
  | nil => simp [startsWith]
  | cons b t ih =>
      cases s with
      | nil => simp [startsWith]
      | cons a s =>
          simp only [startsWith, Bool.and_eq_true, beq_iff_eq, ih, List.cons_append,
            List.cons.injEq]
          constructor
          · rintro ⟨rfl, r, rfl⟩; exact ⟨r, rfl, rfl⟩
          · rintro ⟨r, rfl, rfl⟩; exact ⟨rfl, r, rfl⟩

theorem hasSub_iff (t s : PyStr) :
    hasSub t s = true ↔ ∃ u v, s = u ++ t ++ v := by
  induction s with
  | nil =>
      simp only [hasSub, List.isEmpty_iff]
      constructor
      · rintro rfl; exact ⟨[], [], rfl⟩
      · rintro ⟨u, v, h⟩
        rcases List.append_eq_nil.mp h.symm with ⟨h1, h2⟩
        exact (List.append_eq_nil.mp h1).2
  | cons c s ih =>
      simp only [hasSub, Bool.or_eq_true, startsWith_iff, ih]
      constructor
      · rintro (⟨r, h⟩ | ⟨u, v, h⟩)
        · exact ⟨[], r, by simp [h]⟩
        · exact ⟨c :: u, v, by simp [h]⟩
      · rintro ⟨u, v, h⟩
        cases u with
        | nil => exact Or.inl ⟨v, by simpa using h⟩
        | cons u0 u =>
            rw [List.cons_append, List.cons_append] at h
            injection h with h0 h1
            exact Or.inr ⟨u, v, h1⟩

/-! ### strip: dropWhile facts -/

theorem head_dropWhile_false (p : Nat → Bool) (l : List Nat) (c : Nat)
    (h : (l.dropWhile p).head? = some c) : p c = false := by
  induction l with
  | nil => simp [List.dropWhile] at h
  | cons a l ih =>
      rw [List.dropWhile_cons] at h
      by_cases ha : p a = true
      · simp [ha] at h; exact ih h
      · simp [ha] at h
        rw [← h]; exact eq_false_of_ne_true ha

theorem length_dropWhile_le (p : Nat → Bool) (l : List Nat) :
    (l.dropWhile p).length ≤ l.length := by
  induction l with
  | nil => simp
  | cons a l ih =>
      rw [List.dropWhile_cons]
      by_cases ha : p a = true
      · simp only [ha, if_true, List.length_cons]; omega
      · simp [ha]

theorem dropWhile_eq_self_iff_head (p : Nat → Bool) (l : List Nat) :
    l.dropWhile p = l ↔ ∀ c, l.head? = some c → p c = false := by
  cases l with
  | nil => simp
  | cons a l =>
      rw [List.dropWhile_cons]
      by_cases ha : p a = true
      · simp only [ha, if_true]
        constructor
        · intro h
          have hlen := congrArg List.length h
          have hle := length_dropWhile_le p l
          simp only [List.length_cons] at hlen
          omega
        · intro h
          have := h a rfl
          rw [ha] at this; cases this
      · simp only [ha, if_false]
        constructor
        · intro _ c hc
          rw [List.head?_cons] at hc
          injection hc with hc; subst hc
          exact eq_false_of_ne_true ha
        · intro _; rfl

theorem dropWhile_idem (p : Nat → Bool) (l : List Nat) :
    (l.dropWhile p).dropWhile p = l.dropWhile p := by
  rw [dropWhile_eq_self_iff_head]
  exact fun c hc => head_dropWhile_false p l c hc

theorem dropWhile_append_all (p : Nat → Bool) (a b : List Nat)
    (h : ∀ c ∈ a, p c = true) : (a ++ b).dropWhile p = b.dropWhile p := by
  induction a with
  | nil => simp
  | cons x a ih =>
      rw [List.cons_append, List.dropWhile_cons, if_pos (h x (by simp))]
      exact ih (fun c hc => h c (by simp [hc]))

theorem dropWhile_eq_nil_of_all (p : Nat → Bool) (a : List Nat)
    (h : ∀ c ∈ a, p c = true) : a.dropWhile p = [] := by
  have := dropWhile_append_all p a [] h
  simpa using this

theorem takeWhile_all (p : Nat → Bool) (l : List Nat) :
    ∀ c ∈ l.takeWhile p, p c = true := by
  intro c hc
  exact List.mem_takeWhile_imp hc

/-- Decomposition of a string into leading spaces, its strip, and
trailing spaces. -/
theorem strip_decomp (s : PyStr) :
    ∃ a b, s = a ++ pyStrip s ++ b ∧ (∀ c ∈ a, isSpaceB c = true) ∧
      (∀ c ∈ b, isSpaceB c = true) := by
  refine ⟨s.takeWhile isSpaceB,
    ((s.dropWhile isSpaceB).reverse.takeWhile isSpaceB).reverse, ?_, ?_, ?_⟩
  · conv_lhs => rw [← List.takeWhile_append_dropWhile (p := isSpaceB) (l := s)]
    rw [List.append_assoc]
    congr 1
    conv_lhs => rw [← List.reverse_reverse (s.dropWhile isSpaceB)]
    conv_lhs =>
      rw [← List.takeWhile_append_dropWhile (p := isSpaceB)
        (l := (s.dropWhile isSpaceB).reverse)]
    rw [List.reverse_append]
    rfl
  · exact takeWhile_all isSpaceB s
  · intro c hc
    rw [List.mem_reverse] at hc
    exact takeWhile_all isSpaceB _ c hc

theorem strip_eq_nil_of_all (s : PyStr) (h : ∀ c ∈ s, isSpaceB c = true) :
    pyStrip s = [] := by
  unfold pyStrip
  rw [dropWhile_eq_nil_of_all isSpaceB s h]
  rfl

theorem exists_not_space_of_strip_ne_nil (s : PyStr) (h : pyStrip s ≠ []) :
    ∃ c ∈ s, isSpaceB c = false := by
  by_contra hall
  push_neg at hall
  refine h (strip_eq_nil_of_all s ?_)
  intro c hc
  have := hall c hc
  exact eq_true_of_ne_false (by intro hf; exact (this hf).elim)

theorem strip_ne_nil (s : PyStr) (c : Nat) (hc : c ∈ s)
    (hns : isSpaceB c = false) : pyStrip s ≠ [] := by
  intro hnil
  obtain ⟨a, b, hdec, _, _⟩ := strip_decomp s
  rw [hnil] at hdec
  simp only [List.append_nil] at hdec
  rw [hdec] at hc
  rcases List.mem_append.mp hc with h1 | h2
  · rw [‹∀ c ∈ a, isSpaceB c = true› c h1] at hns; cases hns
  · rw [‹∀ c ∈ b, isSpaceB c = true› c h2] at hns; cases hns

/-- `pyStrip` is idempotent. -/
theorem strip_idem (s : PyStr) : pyStrip (pyStrip s) = pyStrip s := by
  have hpre : ∃ r, s.dropWhile isSpaceB = pyStrip s ++ r ∧
      (∀ c ∈ r, isSpaceB c = true) := by
    refine ⟨((s.dropWhile isSpaceB).reverse.takeWhile isSpaceB).reverse, ?_, ?_⟩
    · conv_lhs => rw [← List.reverse_reverse (s.dropWhile isSpaceB)]
      conv_lhs =>
        rw [← List.takeWhile_append_dropWhile (p := isSpaceB)
          (l := (s.dropWhile isSpaceB).reverse)]
      rw [List.reverse_append]
      rfl
    · intro c hc
      rw [List.mem_reverse] at hc
      exact takeWhile_all isSpaceB _ c hc
  obtain ⟨r, hr, hrsp⟩ := hpre
  have hA : (pyStrip s).dropWhile isSpaceB = pyStrip s := by
    rw [dropWhile_eq_self_iff_head]
    intro c hc
    have hd : (s.dropWhile isSpaceB).head? = some c := by
      rw [hr]
      cases hps : pyStrip s with
      | nil => rw [hps] at hc; cases hc
      | cons x xs =>
          rw [hps] at hc
          rw [List.head?_cons] at hc
          injection hc with hc
          subst hc
          simp [hps]
    exact head_dropWhile_false isSpaceB s c hd
  have hB : (pyStrip s).reverse.dropWhile isSpaceB = (pyStrip s).reverse := by
    unfold pyStrip
    rw [List.reverse_reverse]
    exact dropWhile_idem isSpaceB _
  generalize hgen : pyStrip s = t at hA hB ⊢
  unfold pyStrip
  rw [hA, hB, List.reverse_reverse]

/-- Appending trailing whitespace does not change the strip. -/
theorem strip_append_space (u sp : PyStr) (h : ∀ c ∈ sp, isSpaceB c = true) :
    pyStrip (u ++ sp) = pyStrip u := by
  unfold pyStrip
  rw [List.dropWhile_append]
  by_cases hu : (u.dropWhile isSpaceB).isEmpty = true
  · rw [if_pos hu]
    rw [List.isEmpty_iff] at hu
    rw [hu, dropWhile_eq_nil_of_all isSpaceB sp h]
  · rw [if_neg hu]
    rw [List.reverse_append]
    rw [dropWhile_append_all isSpaceB sp.reverse _
      (fun c hc => h c (List.mem_reverse.mp hc))]

/-- Prepending leading whitespace does not change the strip. -/
theorem strip_space_append (sp u : PyStr) (h : ∀ c ∈ sp, isSpaceB c = true) :
    pyStrip (sp ++ u) = pyStrip u := by
  unfold pyStrip
  rw [dropWhile_append_all isSpaceB sp u h]

/-! ### Substring survival through strip and upper -/

theorem infix_dropWhile (t s : PyStr) (ht : t ≠ [])
    (hns : ∀ c ∈ t, isSpaceB c = false)
    (h : ∃ u v, s = u ++ t ++ v) :
    ∃ u v, s.dropWhile isSpaceB = u ++ t ++ v := by
  obtain ⟨u, v, rfl⟩ := h
  rw [List.append_assoc, List.dropWhile_append]
  by_cases hu : (u.dropWhile isSpaceB).isEmpty = true
  · rw [if_pos hu]
    cases t with
    | nil => exact (ht rfl).elim
    | cons c t0 =>
        rw [List.cons_append, List.dropWhile_cons,
          if_neg (by rw [hns c (by simp)]; simp)]
        exact ⟨[], v, rfl⟩
  · rw [if_neg hu]
    exact ⟨u.dropWhile isSpaceB, v, by rw [List.append_assoc]⟩

theorem infix_reverse (t s : PyStr) (h : ∃ u v, s = u ++ t ++ v) :
    ∃ u v, s.reverse = u ++ t.reverse ++ v := by
  obtain ⟨u, v, rfl⟩ := h
  exact ⟨v.reverse, u.reverse, by simp⟩

/-- A nonempty substring containing no whitespace survives `pyStrip`. -/
theorem infix_strip (t s : PyStr) (ht : t ≠ [])
    (hns : ∀ c ∈ t, isSpaceB c = false)
    (h : ∃ u v, s = u ++ t ++ v) :
    ∃ u v, pyStrip s = u ++ t ++ v := by
  have h1 := infix_dropWhile t s ht hns h
  have h2 := infix_reverse t (s.dropWhile isSpaceB) h1
  have h3 : t.reverse ≠ [] := by
    intro hr
    exact ht (by simpa using congrArg List.reverse hr)
  have h4 : ∀ c ∈ t.reverse, isSpaceB c = false := by
    intro c hc
    exact hns c (List.mem_reverse.mp hc)
  have h5 := infix_dropWhile t.reverse (s.dropWhile isSpaceB).reverse h3 h4 h2
  have h6 := infix_reverse t.reverse _ h5
  rw [List.reverse_reverse] at h6
  exact h6

theorem dropWhile_map_upperC (s : PyStr) :
    (s.map upperC).dropWhile isSpaceB = (s.dropWhile isSpaceB).map upperC := by
  induction s with
  | nil => rfl
  | cons c s ih =>
      rw [List.map_cons, List.dropWhile_cons, List.dropWhile_cons, isSpaceB_upperC]
      by_cases h : isSpaceB c = true
      · rw [if_pos h, if_pos h]; exact ih
      · rw [if_neg h, if_neg h, List.map_cons]

/-- `upper` commutes with `strip`. -/
theorem pyUpper_pyStrip (s : PyStr) :
    pyUpper (pyStrip s) = pyStrip (pyUpper s) := by
  unfold pyStrip pyUpper
  rw [dropWhile_map_upperC, ← List.map_reverse, dropWhile_map_upperC,
    ← List.map_reverse]

/-! ### title: case structure -/

theorem pyLower_titleAux (b : Bool) (s : PyStr) :
    pyLower (titleAux b s) = pyLower s := by
  induction s generalizing b with
  | nil => rfl
  | cons c s ih =>
      simp only [titleAux, pyLower, List.map_cons]
      by_cases ha : isAlphaB c = true
      · rw [if_pos ha]
        cases b with
        | true => rw [if_pos rfl, lowerC_lowerC]; exact congrArg _ (ih _)
        | false =>
            simp only [Bool.false_eq_true, if_false, lowerC_upperC]
            exact congrArg _ (ih _)
      · rw [if_neg ha]; exact congrArg _ (ih _)

theorem pyUpper_titleAux (b : Bool) (s : PyStr) :
    pyUpper (titleAux b s) = pyUpper s := by
  induction s generalizing b with
  | nil => rfl
  | cons c s ih =>
      simp only [titleAux, pyUpper, List.map_cons]
      by_cases ha : isAlphaB c = true
      · rw [if_pos ha]
        cases b with
        | true => rw [if_pos rfl, upperC_lowerC]; exact congrArg _ (ih _)
        | false =>
            simp only [Bool.false_eq_true, if_false, upperC_upperC]
            exact congrArg _ (ih _)
      · rw [if_neg ha]; exact congrArg _ (ih _)

theorem titleAux_pyLower (b : Bool) (s : PyStr) :
    titleAux b (pyLower s) = titleAux b s := by
  induction s generalizing b with
  | nil => rfl
  | cons c s ih =>
      simp only [pyLower, List.map_cons, titleAux, isAlphaB_lowerC]
      by_cases ha : isAlphaB c = true
      · rw [if_pos ha, if_pos ha]
        cases b with
        | true => rw [if_pos rfl, if_pos rfl, lowerC_lowerC]; exact congrArg _ (ih _)
        | false =>
            simp only [Bool.false_eq_true, if_false, upperC_lowerC]
            exact congrArg _ (ih _)
      · rw [if_neg ha, if_neg ha, lowerC_of_not_alpha c (eq_false_of_ne_true ha)]
        exact congrArg _ (ih _)

theorem titleAux_idem (b : Bool) (s : PyStr) :
    titleAux b (titleAux b s) = titleAux b s := by
  induction s generalizing b with
  | nil => rfl
  | cons c s ih =>
      simp only [titleAux]
      by_cases ha : isAlphaB c = true
      · rw [if_pos ha]
        cases b with
        | true =>
            rw [if_pos rfl]
            simp only [titleAux, isAlphaB_lowerC, ha, if_pos, lowerC_lowerC]
            exact congrArg _ (ih _)
        | false =>
            simp only [Bool.false_eq_true, if_false]
            simp only [titleAux, isAlphaB_upperC, ha, if_pos, Bool.false_eq_true,
              if_false, upperC_upperC]
            exact congrArg _ (ih _)
      · rw [if_neg ha]
        simp only [titleAux, if_neg ha]
        exact congrArg _ (ih _)

theorem titleAux_take (b : Bool) (n : Nat) (s : PyStr) :
    (titleAux b s).take n = titleAux b (s.take n) := by
  induction s generalizing b n with
  | nil => simp [titleAux]
  | cons c s ih =>
      cases n with
      | zero => rfl
      | succ n => simp only [titleAux, List.take_succ_cons, ih]

theorem titleAux_length (b : Bool) (s : PyStr) :
    (titleAux b s).length = s.length := by
  induction s generalizing b with
  | nil => rfl
  | cons c s ih => simp only [titleAux, List.length_cons, ih]

theorem titleAux_all_isDigitB (b : Bool) (s : PyStr) :
    (titleAux b s).all isDigitB = s.all isDigitB := by
  induction s generalizing b with
  | nil => rfl
  | cons c s ih =>
      simp only [titleAux, List.all_cons, ih]
      by_cases ha : isAlphaB c = true
      · rw [if_pos ha]
        cases b with
        | true => rw [if_pos rfl, isDigitB_lowerC]
        | false => simp only [Bool.false_eq_true, if_false, isDigitB_upperC]
      · rw [if_neg ha]

theorem pyIsDigit_titleAux (b : Bool) (s : PyStr) :
    pyIsDigit (titleAux b s) = pyIsDigit s := by
  unfold pyIsDigit
  rw [titleAux_all_isDigitB]
  have h : (titleAux b s).isEmpty = s.isEmpty := by
    cases s <;> simp [titleAux]
  rw [h]

theorem cleanStr_titleAux (b : Bool) (s : PyStr) :
    cleanStr (titleAux b s) = cleanStr s := by
  induction s generalizing b with
  | nil => rfl
  | cons c s ih =>
      simp only [titleAux, cleanStr, List.filter_cons] at ih ⊢
      by_cases ha : isAlphaB c = true
      · rw [if_pos ha]
        cases b with
        | true =>
            rw [if_pos rfl, isAlnumB_lowerC]
            by_cases hn : isAlnumB c = true
            · simp only [hn, if_pos, List.map_cons, upperC_lowerC]
              exact congrArg _ (ih _)
            · simp only [hn, Bool.false_eq_true, if_false]
              exact ih _
        | false =>
            simp only [Bool.false_eq_true, if_false, isAlnumB_upperC]
            by_cases hn : isAlnumB c = true
            · simp only [hn, if_pos, List.map_cons, upperC_upperC]
              exact congrArg _ (ih _)
            · simp only [hn, Bool.false_eq_true, if_false]
              exact ih _
      · rw [if_neg ha]
        by_cases hn : isAlnumB c = true
        · simp only [hn, if_pos, List.map_cons]
          exact congrArg _ (ih (isAlphaB c))
        · simp only [hn, Bool.false_eq_true, if_false]
          exact ih (isAlphaB c)

theorem map_isSpaceB_titleAux (b : Bool) (s : PyStr) :
    (titleAux b s).map isSpaceB = s.map isSpaceB := by
  induction s generalizing b with
  | nil => rfl
  | cons c s ih =>
      simp only [titleAux, List.map_cons, ih]
      by_cases ha : isAlphaB c = true
      · rw [if_pos ha]
        cases b with
        | true => rw [if_pos rfl, isSpaceB_lowerC]
        | false => simp only [Bool.false_eq_true, if_false, isSpaceB_upperC]
      · rw [if_neg ha]

/-! ### title and strip commute -/

theorem dropWhile_titleAux (s : PyStr) :
    (titleAux false s).dropWhile isSpaceB =
      titleAux false (s.dropWhile isSpaceB) := by
  induction s with
  | nil => rfl
  | cons c s ih =>
      by_cases hsp : isSpaceB c = true
      · have ha : isAlphaB c = false := not_alpha_of_space c hsp
        simp only [titleAux, ha, Bool.false_eq_true, if_false, List.dropWhile_cons,
          hsp, if_pos]
        exact ih
      · have h2 : isSpaceB (if isAlphaB c = true then upperC c else c) = false := by
          by_cases ha : isAlphaB c = true
          · rw [if_pos ha, isSpaceB_upperC]
            exact eq_false_of_ne_true hsp
          · rw [if_neg ha]
            exact eq_false_of_ne_true hsp
        simp only [titleAux, Bool.false_eq_true, if_false, List.dropWhile_cons, h2,
          hsp]

theorem titleAux_append (b : Bool) (u v : PyStr) :
    ∃ b2, titleAux b (u ++ v) = titleAux b u ++ titleAux b2 v := by
  induction u generalizing b with
  | nil => exact ⟨b, rfl⟩
  | cons c u ih =>
      obtain ⟨b2, hb2⟩ := ih (isAlphaB c)
      refine ⟨b2, ?_⟩
      simp only [List.cons_append, titleAux]
      exact congrArg _ hb2

theorem titleAux_all_space (b : Bool) (v : PyStr)
    (h : ∀ c ∈ v, isSpaceB c = true) : titleAux b v = v := by
  induction v generalizing b with
  | nil => rfl
  | cons c v ih =>
      have ha : isAlphaB c = false := not_alpha_of_space c (h c (by simp))
      simp only [titleAux, ha, Bool.false_eq_true, if_false]
      rw [ih _ (fun x hx => h x (by simp [hx]))]

theorem dropWhile_strip_decomp (s : PyStr) :
    ∃ r, s.dropWhile isSpaceB = pyStrip s ++ r ∧
      (∀ c ∈ r, isSpaceB c = true) := by
  refine ⟨((s.dropWhile isSpaceB).reverse.takeWhile isSpaceB).reverse, ?_, ?_⟩
  · conv_lhs => rw [← List.reverse_reverse (s.dropWhile isSpaceB)]
    conv_lhs =>
      rw [← List.takeWhile_append_dropWhile (p := isSpaceB)
        (l := (s.dropWhile isSpaceB).reverse)]
    rw [List.reverse_append]
    rfl
  · intro c hc
    rw [List.mem_reverse] at hc
    exact takeWhile_all isSpaceB _ c hc

theorem head_space_transfer (u v : List Nat)
    (h : u.map isSpaceB = v.map isSpaceB)
    (hv : ∀ c, v.head? = some c → isSpaceB c = false) :
    ∀ c, u.head? = some c → isSpaceB c = false := by
  intro c hc
  have hh := congrArg List.head? h
  rw [List.head?_map, List.head?_map, hc] at hh
  cases hv2 : v.head? with
  | none => rw [hv2] at hh; cases hh
  | some c2 =>
      rw [hv2] at hh
      injection hh with hh
      rw [hh]
      exact hv c2 hv2

theorem strip_reverse_self (s : PyStr) :
    (pyStrip s).reverse.dropWhile isSpaceB = (pyStrip s).reverse := by
  unfold pyStrip
  rw [List.reverse_reverse]
  exact dropWhile_idem isSpaceB _

/-- `title` commutes with `strip`. -/
theorem strip_title (s : PyStr) :
    pyStrip (pyTitle s) = pyTitle (pyStrip s) := by
  obtain ⟨r, hr, hrsp⟩ := dropWhile_strip_decomp s
  have step1 : (pyTitle s).dropWhile isSpaceB =
      titleAux false (s.dropWhile isSpaceB) := dropWhile_titleAux s
  obtain ⟨b2, hb2⟩ := titleAux_append false (pyStrip s) r
  have hsp2 : titleAux b2 r = r := titleAux_all_space b2 r hrsp
  have step2 : titleAux false (s.dropWhile isSpaceB) =
      titleAux false (pyStrip s) ++ r := by
    rw [hr, hb2, hsp2]
  have hmask : (titleAux false (pyStrip s)).reverse.map isSpaceB =
      (pyStrip s).reverse.map isSpaceB := by
    rw [List.map_reverse, List.map_reverse, map_isSpaceB_titleAux]
  have hself : (titleAux false (pyStrip s)).reverse.dropWhile isSpaceB =
      (titleAux false (pyStrip s)).reverse := by
    rw [dropWhile_eq_self_iff_head]
    refine head_space_transfer _ ((pyStrip s).reverse) hmask ?_
    intro c hc
    have := strip_reverse_self s
    rw [dropWhile_eq_self_iff_head] at this
    exact this c hc
  unfold pyStrip
  rw [step1, step2, List.reverse_append,
    dropWhile_append_all isSpaceB r.reverse _
      (fun c hc => hrsp c (List.mem_reverse.mp hc)),
    hself, List.reverse_reverse]
  rfl

/-! ### Table lookups and finite facts -/

theorem tblLookup_mem (t : List (PyStr × PyStr)) (k v : PyStr)
    (h : tblLookup t k = some v) : (k, v) ∈ t := by
  induction t with
  | nil => cases h
  | cons p rest ih =>
      cases p with
      | mk k0 v0 =>
          rw [tblLookup] at h
          by_cases hk : k0 = k
          · rw [if_pos hk] at h
            injection h with h
            subst h; subst hk
            exact List.mem_cons_self _ _
          · rw [if_neg hk] at h
            exact List.mem_cons_of_mem _ (ih h)

theorem image_ne_nil : ∀ v ∈ canonicalImage, v ≠ [] := by decide

theorem normalize_fixed_on_image :
    ∀ v ∈ canonicalImage, normalize_state_name v = some v := by decide

theorem image_lower_inj :
    ∀ v ∈ canonicalImage, ∀ w ∈ canonicalImage,
      pyLower v = pyLower w → v = w := by decide

theorem image_title_cover :
    ∀ C ∈ canonicalImage,
      titleAux false (pyLower C) = C ∨
      (tblLookup SPELLING_VARIATIONS (cleanStr C)).isSome = true ∨
      dadraTest (pyUpper C) = true := by decide

theorem abbrev_no_dadra : ∀ p ∈ ABBREVIATIONS, dadraTest p.1 = false := by decide

theorem canonical_no_dadra :
    ∀ p ∈ CANONICAL_STATES, dadraTest p.1 = false := by decide

theorem variations_no_dadra :
    ∀ p ∈ SPELLING_VARIATIONS, dadraTest p.1 = false := by decide

/-! ### Length and emptiness facts about strip and cleaned -/

theorem strip_length_le (s : PyStr) : (pyStrip s).length ≤ s.length := by
  unfold pyStrip
  rw [List.length_reverse]
  calc ((s.dropWhile isSpaceB).reverse.dropWhile isSpaceB).length
      ≤ (s.dropWhile isSpaceB).reverse.length := length_dropWhile_le _ _
    _ = (s.dropWhile isSpaceB).length := List.length_reverse _
    _ ≤ s.length := length_dropWhile_le _ _

theorem strip_nil_all_space (l : PyStr) (h : pyStrip l = []) :
    ∀ c ∈ l, isSpaceB c = true := by
  obtain ⟨a, b, hdec, ha, hb⟩ := strip_decomp l
  rw [h, List.append_nil] at hdec
  intro c hc
  rw [hdec] at hc
  rcases List.mem_append.mp hc with h1 | h2
  · exact ha c h1
  · exact hb c h2

theorem strip_of_nonempty (x : PyStr)
    (hinv : pyUpper (pyStrip x) ∉ INVALID_STATES) : pyStrip x ≠ [] := by
  intro hnil
  apply hinv
  rw [hnil]
  exact List.mem_cons_self _ _

/-- Under the validity conditions the cleaned name is nonempty. -/
theorem cleaned_ne_nil (x : PyStr)
    (hinv : pyUpper (pyStrip x) ∉ INVALID_STATES) : cleaned x ≠ [] := by
  have h0 : pyStrip x ≠ [] := strip_of_nonempty x hinv
  unfold cleaned
  by_cases ht : theTest (pyStrip x) = true
  · rw [if_pos ht]
    unfold theTest at ht
    rw [decide_eq_true_eq] at ht
    have hlen4 : (pyStrip x).take 4 = (pyStrip x).take 4 := rfl
    have hself : pyStrip (pyStrip x) = pyStrip x := strip_idem x
    -- the strip has length at least 4
    have hlen : 4 ≤ (pyStrip x).length := by
      have := congrArg List.length ht
      rw [pyUpper, List.length_map, List.length_take] at this
      have h4 : (pys "THE ").length = 4 := rfl
      omega
    intro hnil
    have hall : ∀ c ∈ (pyStrip x).drop 4, isSpaceB c = true :=
      strip_nil_all_space _ hnil
    have hsplit : (pyStrip x).take 4 ++ (pyStrip x).drop 4 = pyStrip x :=
      List.take_append_drop 4 (pyStrip x)
    have hs2 : pyStrip (pyStrip x) = pyStrip ((pyStrip x).take 4) := by
      conv_lhs => rw [← hsplit]
      exact strip_append_space _ _ hall
    have hlen2 : (pyStrip ((pyStrip x).take 4)).length ≤ 4 := by
      calc (pyStrip ((pyStrip x).take 4)).length
          ≤ ((pyStrip x).take 4).length := strip_length_le _
        _ ≤ 4 := by rw [List.length_take]; omega
    rw [hself] at hs2
    -- so the strip has length exactly 4 and its fourth character is a space
    have hlen3 : (pyStrip x).length = 4 := by
      have := congrArg List.length hs2
      omega
    have htake : (pyStrip x).take 4 = pyStrip x := by
      rw [List.take_of_length_le (by omega)]
    rw [htake] at ht
    -- extract the four characters
    cases hx : pyStrip x with
    | nil => exact h0 hx
    | cons c1 r1 =>
        rw [hx] at ht hlen3
        cases r1 with
        | nil => simp at hlen3
        | cons c2 r2 =>
            cases r2 with
            | nil => simp at hlen3
            | cons c3 r3 =>
                cases r3 with
                | nil => simp at hlen3
                | cons c4 r4 =>
                    cases r4 with
                    | cons c5 r5 => simp at hlen3
                    | nil =>
                        -- upperC c4 = 32, hence c4 = 32, a space
                        have h32 : upperC c4 = 32 := by
                          have : pyUpper [c1, c2, c3, c4] = pys "THE " := ht
                          rw [show pys "THE " = [84, 72, 69, 32] from rfl] at this
                          simp only [pyUpper, List.map_cons, List.map_nil,
                            List.cons.injEq, and_true] at this
                          exact this.2.2.2
                        have hc4 : c4 = 32 := by
                          unfold upperC at h32
                          split_ifs at h32 <;> omega
                        have hsp4 : ∀ c ∈ [c4], isSpaceB c = true := by
                          intro c hc
                          rw [List.mem_singleton] at hc
                          subst hc; rw [hc4]; rfl
                        have : pyStrip [c1, c2, c3, c4] =
                            pyStrip [c1, c2, c3] := by
                          have happ : [c1, c2, c3, c4] =
                              [c1, c2, c3] ++ [c4] := rfl
                          rw [happ]
                          exact strip_append_space _ _ hsp4
                        have hs3 : pyStrip (pyStrip x) = pyStrip x := strip_idem x
                        rw [hx, this] at hs3
                        have := strip_length_le [c1, c2, c3]
                        have := congrArg List.length hs3
                        simp only [List.length_cons, List.length_nil] at *
                        omega
  · rw [if_neg ht]
    exact h0

/-! ### Structure of normalize_state_name -/

theorem abbrev_value_mem_image (k v : PyStr)
    (h : tblLookup ABBREVIATIONS k = some v) : v ∈ canonicalImage := by
  unfold canonicalImage
  exact List.mem_append_left _ (List.mem_append_left _
    (List.mem_map_of_mem Prod.snd (tblLookup_mem _ _ _ h)))

theorem canonical_value_mem_image (k v : PyStr)
    (h : tblLookup CANONICAL_STATES k = some v) : v ∈ canonicalImage := by
  unfold canonicalImage
  rw [List.append_assoc]
  exact List.mem_append_right _ (List.mem_append_left _
    (List.mem_map_of_mem Prod.snd (tblLookup_mem _ _ _ h)))

theorem variations_value_mem_image (k v : PyStr)
    (h : tblLookup SPELLING_VARIATIONS k = some v) : v ∈ canonicalImage := by
  unfold canonicalImage
  rw [List.append_assoc]
  exact List.mem_append_right _ (List.mem_append_right _
    (List.mem_map_of_mem Prod.snd (tblLookup_mem _ _ _ h)))

theorem dadraTarget_mem_image : dadraTarget ∈ canonicalImage := by decide

theorem lookupStages_ne_none (n : PyStr) : lookupStages n ≠ none := by
  unfold lookupStages
  cases h1 : tblLookup ABBREVIATIONS (pyUpper n) with
  | some v => simp
  | none =>
      cases h2 : tblLookup CANONICAL_STATES (pyUpper n) with
      | some v => simp
      | none =>
          cases h3 : tblLookup SPELLING_VARIATIONS (cleanStr n) with
          | some v => simp
          | none =>
              by_cases h4 : dadraTest (pyUpper n) = true
              · rw [if_pos h4]; simp
              · rw [if_neg h4]; simp

theorem normalize_eq_stages (x : PyStr)
    (hinv : pyUpper (pyStrip x) ∉ INVALID_STATES)
    (hdig : pyIsDigit (pyStrip x) = false) :
    normalize_state_name x = lookupStages (cleaned x) := by
  have h0 : pyStrip x ≠ [] := strip_of_nonempty x hinv
  have hx : x.isEmpty = false := by
    cases x with
    | nil => exact absurd rfl h0
    | cons a l => rfl
  unfold normalize_state_name
  rw [hx]
  rw [if_neg (by simp), if_neg hinv, if_neg (by rw [hdig]; simp)]

theorem normalize_none_iff (x : PyStr) :
    normalize_state_name x = none ↔
      pyUpper (pyStrip x) ∈ INVALID_STATES ∨ pyIsDigit (pyStrip x) = true := by
  constructor
  · intro h
    by_cases hinv : pyUpper (pyStrip x) ∈ INVALID_STATES
    · exact Or.inl hinv
    by_cases hdig : pyIsDigit (pyStrip x) = true
    · exact Or.inr hdig
    rw [normalize_eq_stages x hinv (eq_false_of_ne_true hdig)] at h
    exact absurd h (lookupStages_ne_none _)
  · intro h
    unfold normalize_state_name
    by_cases hx : x.isEmpty = true
    · rw [hx]; rfl
    rw [eq_false_of_ne_true hx, if_neg (by simp)]
    rcases h with h | h
    · rw [if_pos h]
    · by_cases hinv : pyUpper (pyStrip x) ∈ INVALID_STATES
      · rw [if_pos hinv]
      · rw [if_neg hinv, if_pos h]

/-- A successful normalization is never the empty string. -/
theorem normalize_some_ne_nil (x s : PyStr)
    (h : normalize_state_name x = some s) : s ≠ [] := by
  have hnone : normalize_state_name x ≠ none := by rw [h]; simp
  rw [Ne, normalize_none_iff] at hnone
  push_neg at hnone
  obtain ⟨hinv, hdig⟩ := hnone
  rw [normalize_eq_stages x hinv (eq_false_of_ne_true hdig)] at h
  unfold lookupStages at h
  cases h1 : tblLookup ABBREVIATIONS (pyUpper (cleaned x)) with
  | some v =>
      rw [h1] at h
      injection h with h
      subst h
      exact image_ne_nil v (abbrev_value_mem_image _ v h1)
  | none =>
  rw [h1] at h
  cases h2 : tblLookup CANONICAL_STATES (pyUpper (cleaned x)) with
  | some v =>
      rw [h2] at h
      injection h with h
      subst h
      exact image_ne_nil v (canonical_value_mem_image _ v h2)
  | none =>
  rw [h2] at h
  cases h3 : tblLookup SPELLING_VARIATIONS (cleanStr (cleaned x)) with
  | some v =>
      rw [h3] at h
      injection h with h
      subst h
      exact image_ne_nil v (variations_value_mem_image _ v h3)
  | none =>
  rw [h3] at h
  by_cases h4 : dadraTest (pyUpper (cleaned x)) = true
  · rw [if_pos h4] at h
    injection h with h
    subst h
    exact image_ne_nil _ dadraTarget_mem_image
  · rw [if_neg h4] at h
    injection h with h
    subst h
    intro hnil
    have hlen := titleAux_length false (cleaned x)
    rw [show titleAux false (cleaned x) = pyTitle (cleaned x) from rfl, hnil] at hlen
    exact cleaned_ne_nil x hinv (List.eq_nil_of_length_eq_zero hlen.symm)

theorem normalize_nil : normalize_state_name [] = none := rfl

theorem mem_dbStates (store : List PyStr) (st : PyStr) :
    st ∈ dbStates store ↔ ∃ raw ∈ store, normalize_state_name raw = some st := by
  unfold dbStates
  rw [List.mem_filterMap]
  constructor
  · rintro ⟨a, ha, hf⟩
    refine ⟨a, ha, ?_⟩
    by_cases he : a.isEmpty = true
    · rw [if_pos he] at hf; cases hf
    · rw [if_neg he] at hf
      cases hn : normalize_state_name a with
      | none => rw [hn] at hf; cases hf
      | some t =>
          rw [hn] at hf
          have hf2 : (if t.isEmpty = true then none else some t) = some st := hf
          by_cases hte : t.isEmpty = true
          · rw [if_pos hte] at hf2; cases hf2
          · rw [if_neg hte] at hf2
            injection hf2 with hf2
            rw [hf2]
  · rintro ⟨a, ha, hn⟩
    refine ⟨a, ha, ?_⟩
    have hane : a.isEmpty = false := by
      cases a with
      | nil => rw [normalize_nil] at hn; cases hn
      | cons c l => rfl
    have hstne : st.isEmpty = false := by
      have := normalize_some_ne_nil a st hn
      cases st with
      | nil => exact absurd rfl this
      | cons c l => rfl
    rw [hane]
    simp only [Bool.false_eq_true, if_false]
    rw [hn]
    show (if st.isEmpty = true then none else some st) = some st
    rw [hstne]
    simp

/-- Case-insensitive injectivity of successful normalizations against
canonical names: a normalized form that agrees with a canonical name
up to case is that canonical name. -/
theorem normalize_lower_inj (x s C : PyStr)
    (h : normalize_state_name x = some s)
    (hC : C ∈ canonicalImage)
    (hl : pyLower s = pyLower C) : s = C := by
  have hnone : normalize_state_name x ≠ none := by rw [h]; simp
  rw [Ne, normalize_none_iff] at hnone
  push_neg at hnone
  obtain ⟨hinv, hdig⟩ := hnone
  rw [normalize_eq_stages x hinv (eq_false_of_ne_true hdig)] at h
  unfold lookupStages at h
  cases h1 : tblLookup ABBREVIATIONS (pyUpper (cleaned x)) with
  | some v =>
      rw [h1] at h
      injection h with h
      subst h
      exact image_lower_inj v (abbrev_value_mem_image _ v h1) C hC hl
  | none =>
  rw [h1] at h
  cases h2 : tblLookup CANONICAL_STATES (pyUpper (cleaned x)) with
  | some v =>
      rw [h2] at h
      injection h with h
      subst h
      exact image_lower_inj v (canonical_value_mem_image _ v h2) C hC hl
  | none =>
  rw [h2] at h
  cases h3 : tblLookup SPELLING_VARIATIONS (cleanStr (cleaned x)) with
  | some v =>
      rw [h3] at h
      injection h with h
      subst h
      exact image_lower_inj v (variations_value_mem_image _ v h3) C hC hl
  | none =>
  rw [h3] at h
  by_cases h4 : dadraTest (pyUpper (cleaned x)) = true
  · rw [if_pos h4] at h
    injection h with h
    subst h
    exact image_lower_inj dadraTarget dadraTarget_mem_image C hC hl
  · rw [if_neg h4] at h
    injection h with h
    subst h
    -- fallback: s = title of the cleaned name
    have hln : pyLower (cleaned x) = pyLower C := by
      rw [← pyLower_titleAux false (cleaned x)]
      exact hl
    rcases image_title_cover C hC with hcov | hcov | hcov
    · -- title-stable canonical name
      show titleAux false (cleaned x) = C
      rw [← titleAux_pyLower false (cleaned x), hln, hcov]
    · -- the cleaned name would have hit the spelling-variations table
      exfalso
      have hcl : cleanStr (cleaned x) = cleanStr C := by
        rw [← cleanStr_pyLower (cleaned x), ← cleanStr_pyLower C, hln]
      rw [hcl] at h3
      rw [h3] at hcov
      cases hcov
    · -- the cleaned name would have passed the Dadra containment test
      exfalso
      have hup : pyUpper (cleaned x) = pyUpper C := by
        rw [← pyUpper_pyLower (cleaned x), ← pyUpper_pyLower C, hln]
      rw [hup] at h4
      exact h4 hcov

theorem resolve_unfold (store : List PyStr) (x s : PyStr)
    (hx : x.isEmpty = false) (h : normalize_state_name x = some s) :
    resolve_state store x =
      match (dbStates store).find? (fun st => decide (pyLower st = pyLower s)) with
      | some st => .ok st
      | none =>
        match (dbStates store).find? (fun st => hasSub (pyLower s) (pyLower st)) with
        | some st => .ok st
        | none => .ok s := by
  have hse : s.isEmpty = false := by
    have := normalize_some_ne_nil x s h
    cases s with
    | nil => exact absurd rfl this
    | cons c l => rfl
  unfold resolve_state
  rw [hx, h]
  simp only [Bool.false_eq_true, if_false, hse]

/-! ### Claim theorems -/

/-- C1, counterexample: the claim says the observed-name cross-check
returns the raw stored form verbatim.  With the store holding the raw
value "uttar pradesh" (whose normalized form "Uttar Pradesh" equals
the candidate for input "UP" case-insensitively), `resolve_state`
returns the normalized form "Uttar Pradesh", not the raw stored
"uttar pradesh". -/
theorem c1_counterexample_returns_normalized_not_raw :
    resolve_state [pys "uttar pradesh"] (pys "UP") =
      .ok (pys "Uttar Pradesh") ∧
    normalize_state_name (pys "uttar pradesh") =
      some (pys "Uttar Pradesh") ∧
    pys "Uttar Pradesh" ≠ pys "uttar pradesh" :=
  ⟨rfl, by decide, by decide⟩

/-- C1 (amended): when some observed name's normalized form equals the
candidate case-insensitively, `resolve_state` returns the normalized
form of the first such observed name (not its raw stored form). -/
theorem c1_amended_exact_match_returns_first_normalized
    (store : List PyStr) (x s st : PyStr)
    (hx : x.isEmpty = false)
    (h : normalize_state_name x = some s)
    (hfind : (dbStates store).find?
      (fun t => decide (pyLower t = pyLower s)) = some st) :
    resolve_state store x = .ok st := by
  rw [resolve_unfold store x s hx h, hfind]

/-- Witness for the amended C1 at a concrete store and input. -/
theorem c1_amended_witness :
    resolve_state [pys "uttar pradesh"] (pys "UP") =
      .ok (pys "Uttar Pradesh") :=
  c1_amended_exact_match_returns_first_normalized
    [pys "uttar pradesh"] (pys "UP") (pys "Uttar Pradesh")
    (pys "Uttar Pradesh") rfl (by decide) (by decide)

/-- C2: for every canonical state name `C` (a value of the
abbreviation, canonical-alias or spelling-variation tables) and every
store that contains `C` or is empty, `resolve_state` is idempotent:
`resolve(C) = C`. -/
theorem c2_resolve_idempotent_on_canonical
    (C : PyStr) (hC : C ∈ canonicalImage)
    (store : List PyStr) (hst : C ∈ store ∨ store = []) :
    resolve_state store C = .ok C := by
  have hnorm : normalize_state_name C = some C := normalize_fixed_on_image C hC
  have hCne : C ≠ [] := image_ne_nil C hC
  have hCE : C.isEmpty = false := by
    cases C with
    | nil => exact absurd rfl hCne
    | cons c l => rfl
  rw [resolve_unfold store C C hCE hnorm]
  rcases hst with hmem | hempty
  · have hCdb : C ∈ dbStates store :=
      (mem_dbStates store C).mpr ⟨C, hmem, hnorm⟩
    cases hfind : (dbStates store).find?
        (fun st => decide (pyLower st = pyLower C)) with
    | none =>
        exfalso
        have := List.find?_eq_none.mp hfind C hCdb
        simp at this
    | some st =>
        have hmemfind := List.mem_of_find?_eq_some hfind
        have hp := List.find?_some hfind
        rw [decide_eq_true_eq] at hp
        obtain ⟨raw, hraw, hnr⟩ := (mem_dbStates store st).mp hmemfind
        rw [normalize_lower_inj raw st C hnr hC hp]
  · subst hempty
    rfl

/-- Witness for C2 at a concrete canonical name and store. -/
theorem c2_witness :
    resolve_state [pys "Delhi"] (pys "Delhi") = .ok (pys "Delhi") :=
  c2_resolve_idempotent_on_canonical (pys "Delhi") (by decide)
    [pys "Delhi"] (Or.inl (by decide))

/-- C4: `resolve_state` fails (with a distinguishable error value, not
a returned string) exactly when the trimmed input case-insensitively
matches a token of the placeholder denylist, is whitespace-only
(trims to empty), or is entirely numeric digits. -/
theorem c4_invalid_input_iff (store : List PyStr) (x : PyStr) :
    (∃ e, resolve_state store x = .error e) ↔
      (pyUpper (pyStrip x) ∈ specPlaceholderDenylist ∨ pyStrip x = [] ∨
        pyIsDigit (pyStrip x) = true) := by
  have hsame : specPlaceholderDenylist = INVALID_STATES := rfl
  constructor
  · rintro ⟨e, he⟩
    by_contra hcon
    push_neg at hcon
    obtain ⟨h1, h2, h3⟩ := hcon
    have hinv : pyUpper (pyStrip x) ∉ INVALID_STATES := by
      rw [← hsame]; exact h1
    have hnn : normalize_state_name x ≠ none := by
      rw [Ne, normalize_none_iff]
      push_neg
      exact ⟨hinv, fun hh => h3 hh⟩
    cases hn : normalize_state_name x with
    | none => exact hnn hn
    | some s =>
        have hxne : x ≠ [] := by
          intro hxe
          exact h2 (by rw [hxe]; rfl)
        have hxe : x.isEmpty = false := by
          cases x with
          | nil => exact absurd rfl hxne
          | cons c l => rfl
        rw [resolve_unfold store x s hxe hn] at he
        cases hf1 : (dbStates store).find?
            (fun st => decide (pyLower st = pyLower s)) with
        | some st => rw [hf1] at he; cases he
        | none =>
            rw [hf1] at he
            cases hf2 : (dbStates store).find?
                (fun st => hasSub (pyLower s) (pyLower st)) with
            | some st => rw [hf2] at he; cases he
            | none => rw [hf2] at he; cases he
  · intro hr
    by_cases hxe : x.isEmpty = true
    · refine ⟨.stateRequired, ?_⟩
      unfold resolve_state
      rw [hxe]
      rfl
    · have hnone : normalize_state_name x = none := by
        rw [normalize_none_iff]
        rcases hr with h | h | h
        · exact Or.inl (by rw [← hsame]; exact h)
        · refine Or.inl ?_
          rw [h]
          decide
        · exact Or.inr h
      refine ⟨.invalidInput x, ?_⟩
      unfold resolve_state
      rw [eq_false_of_ne_true hxe, hnone]
      rfl

/-- C5: a valid input that hits no abbreviation, no canonical alias,
no spelling variation, no multi-token rule and no observed name
resolves, without error, to the title-cased cleaned input. -/
theorem c5_fallback_returns_title_case
    (store : List PyStr) (x : PyStr)
    (hinv : pyUpper (pyStrip x) ∉ INVALID_STATES)
    (hdig : pyIsDigit (pyStrip x) = false)
    (habbr : tblLookup ABBREVIATIONS (pyUpper (cleaned x)) = none)
    (hcanon : tblLookup CANONICAL_STATES (pyUpper (cleaned x)) = none)
    (hvar : tblLookup SPELLING_VARIATIONS (cleanStr (cleaned x)) = none)
    (hdadra : dadraTest (pyUpper (cleaned x)) = false)
    (hobs : ∀ st ∈ dbStates store,
      pyLower st ≠ pyLower (pyTitle (cleaned x)) ∧
        hasSub (pyLower (pyTitle (cleaned x))) (pyLower st) = false) :
    resolve_state store x = .ok (pyTitle (cleaned x)) := by
  have hn : normalize_state_name x = some (pyTitle (cleaned x)) := by
    rw [normalize_eq_stages x hinv hdig]
    unfold lookupStages
    rw [habbr, hcanon, hvar, if_neg (by rw [hdadra]; simp)]
  have hxne : x ≠ [] := by
    intro hxe
    exact strip_of_nonempty x hinv (by rw [hxe]; rfl)
  have hxe : x.isEmpty = false := by
    cases x with
    | nil => exact absurd rfl hxne
    | cons c l => rfl
  rw [resolve_unfold store x _ hxe hn]
  have hf1 : (dbStates store).find?
      (fun st => decide (pyLower st = pyLower (pyTitle (cleaned x)))) = none := by
    rw [List.find?_eq_none]
    intro st hst
    simp only [decide_eq_true_eq]
    exact (hobs st hst).1
  rw [hf1]
  have hf2 : (dbStates store).find?
      (fun st => hasSub (pyLower (pyTitle (cleaned x))) (pyLower st)) = none := by
    rw [List.find?_eq_none]
    intro st hst
    rw [(hobs st hst).2]
    simp
  rw [hf2]

/-- Witness for C5: the end-to-end scenario of the spec. -/
theorem c5_witness :
    resolve_state [] (pys "Some New State Nobody Mapped Yet") =
      .ok (pys "Some New State Nobody Mapped Yet") := by
  have h := c5_fallback_returns_title_case []
    (pys "Some New State Nobody Mapped Yet")
    (by decide) (by decide) (by decide) (by decide) (by decide) (by decide)
    (by intro st hst; exact absurd hst (List.not_mem_nil st))
  have h2 : pyTitle (cleaned (pys "Some New State Nobody Mapped Yet")) =
      pys "Some New State Nobody Mapped Yet" := by decide
  rw [h2] at h
  exact h

/-- C8, counterexample: the claim says internal whitespace runs are
collapsed before lookup, so "New  Delhi" (two internal spaces) should
resolve like "New Delhi".  In the source only leading/trailing
whitespace is stripped: "New  Delhi" falls through to the title-case
fallback while "New Delhi" hits the canonical-alias table. -/
theorem c8_counterexample_internal_whitespace_not_collapsed :
    resolve_state [] (pys "New  Delhi") = .ok (pys "New  Delhi") ∧
    resolve_state [] (pys "New Delhi") = .ok (pys "Delhi") ∧
    pys "New  Delhi" ≠ pys "Delhi" :=
  ⟨rfl, rfl, by decide⟩

/-- C8 (amended): the cleaner only trims leading/trailing whitespace
(internal runs are preserved); resolution is invariant under
leading/trailing whitespace for valid inputs. -/
theorem c8_amended_resolution_invariant_under_trim
    (store : List PyStr) (x : PyStr)
    (hinv : pyUpper (pyStrip x) ∉ INVALID_STATES)
    (hdig : pyIsDigit (pyStrip x) = false) :
    resolve_state store x = resolve_state store (pyStrip x) := by
  have hsx : pyStrip (pyStrip x) = pyStrip x := strip_idem x
  have key : normalize_state_name x = normalize_state_name (pyStrip x) := by
    rw [normalize_eq_stages x hinv hdig,
      normalize_eq_stages (pyStrip x) (by rw [hsx]; exact hinv)
        (by rw [hsx]; exact hdig)]
    unfold cleaned
    rw [hsx]
  have hsome : ∃ s, normalize_state_name x = some s := by
    rw [normalize_eq_stages x hinv hdig]
    cases hls : lookupStages (cleaned x) with
    | none => exact absurd hls (lookupStages_ne_none _)
    | some s => exact ⟨s, rfl⟩
  obtain ⟨s, hs⟩ := hsome
  have hs2 : normalize_state_name (pyStrip x) = some s := by
    rw [← key]; exact hs
  have hxne : x ≠ [] := by
    intro hxe
    exact strip_of_nonempty x hinv (by rw [hxe]; rfl)
  have hxe : x.isEmpty = false := by
    cases x with
    | nil => exact absurd rfl hxne
    | cons c l => rfl
  have hstre : (pyStrip x).isEmpty = false := by
    have := strip_of_nonempty x hinv
    cases hy : pyStrip x with
    | nil => exact absurd hy this
    | cons c l => rfl
  rw [resolve_unfold store x s hxe hs,
    resolve_unfold store (pyStrip x) s hstre hs2]

/-- Witness for the amended C8 at a concrete input with edge
whitespace. -/
theorem c8_amended_witness :
    resolve_state [] (pys " New Delhi ") =
      resolve_state [] (pyStrip (pys " New Delhi ")) :=
  c8_amended_resolution_invariant_under_trim [] (pys " New Delhi ")
    (by decide) (by decide)

/-- C10, counterexample: `normalize_state_name` is not idempotent.
"The The Delhi" normalizes to "The Delhi" (only one leading "The " is
stripped), but normalizing "The Delhi" again yields "Delhi". -/
theorem c10_counterexample_not_idempotent :
    normalize_state_name (pys "The The Delhi") = some (pys "The Delhi") ∧
    normalize_state_name (pys "The Delhi") = some (pys "Delhi") ∧
    pys "The Delhi" ≠ pys "Delhi" :=
  ⟨by decide, by decide, by decide⟩

/-- C10 (amended): `normalize_state_name` is idempotent on every input
whose stripped form does not begin with "THE " case-insensitively: if
such an input normalizes to `s`, then `s` normalizes to itself.  (The
counterexample shows idempotence fails when a "The " prefix remains
after one round of stripping.) -/
theorem c10_amended_idempotent_without_the_prefix (x s : PyStr)
    (h : normalize_state_name x = some s)
    (hthe : theTest (pyStrip x) = false) :
    normalize_state_name s = some s := by
  have hnone : normalize_state_name x ≠ none := by rw [h]; simp
  rw [Ne, normalize_none_iff] at hnone
  push_neg at hnone
  obtain ⟨hinv, hdig2⟩ := hnone
  have hdig : pyIsDigit (pyStrip x) = false := eq_false_of_ne_true hdig2
  rw [normalize_eq_stages x hinv hdig] at h
  have hcl : cleaned x = pyStrip x := by
    unfold cleaned
    rw [if_neg (by rw [hthe]; simp)]
  unfold lookupStages at h
  rw [hcl] at h
  cases h1 : tblLookup ABBREVIATIONS (pyUpper (pyStrip x)) with
  | some v =>
      rw [h1] at h
      injection h with h
      subst h
      exact normalize_fixed_on_image v (abbrev_value_mem_image _ v h1)
  | none =>
  rw [h1] at h
  cases h2 : tblLookup CANONICAL_STATES (pyUpper (pyStrip x)) with
  | some v =>
      rw [h2] at h
      injection h with h
      subst h
      exact normalize_fixed_on_image v (canonical_value_mem_image _ v h2)
  | none =>
  rw [h2] at h
  cases h3 : tblLookup SPELLING_VARIATIONS (cleanStr (pyStrip x)) with
  | some v =>
      rw [h3] at h
      injection h with h
      subst h
      exact normalize_fixed_on_image v (variations_value_mem_image _ v h3)
  | none =>
  rw [h3] at h
  by_cases h4 : dadraTest (pyUpper (pyStrip x)) = true
  · rw [if_pos h4] at h
    injection h with h
    subst h
    exact normalize_fixed_on_image _ dadraTarget_mem_image
  · rw [if_neg h4] at h
    injection h with h
    subst h
    -- fallback: s is the title-cased stripped input
    have hstripT : pyStrip (pyTitle (pyStrip x)) = pyTitle (pyStrip x) := by
      rw [strip_title (pyStrip x), strip_idem x]
    have hupT : pyUpper (pyTitle (pyStrip x)) = pyUpper (pyStrip x) :=
      pyUpper_titleAux false (pyStrip x)
    have hinv2 : pyUpper (pyStrip (pyTitle (pyStrip x))) ∉ INVALID_STATES := by
      rw [hstripT, hupT]; exact hinv
    have hdigT : pyIsDigit (pyStrip (pyTitle (pyStrip x))) = false := by
      rw [hstripT]
      rw [show pyIsDigit (pyTitle (pyStrip x)) = pyIsDigit (pyStrip x) from
        pyIsDigit_titleAux false (pyStrip x)]
      exact hdig
    rw [normalize_eq_stages _ hinv2 hdigT]
    have hteq : pyUpper ((pyTitle (pyStrip x)).take 4) =
        pyUpper ((pyStrip x).take 4) := by
      rw [show (pyTitle (pyStrip x)).take 4 =
        titleAux false ((pyStrip x).take 4) from titleAux_take false 4 (pyStrip x)]
      exact pyUpper_titleAux false _
    have hth2 : theTest (pyTitle (pyStrip x)) = theTest (pyStrip x) := by
      unfold theTest
      rw [decide_eq_decide, hteq]
    have hcl2 : cleaned (pyTitle (pyStrip x)) = pyTitle (pyStrip x) := by
      unfold cleaned
      rw [hstripT, if_neg (by rw [hth2, hthe]; simp)]
    rw [hcl2]
    have hclean2 : cleanStr (pyTitle (pyStrip x)) = cleanStr (pyStrip x) :=
      cleanStr_titleAux false _
    have hTT : pyTitle (pyTitle (pyStrip x)) = pyTitle (pyStrip x) :=
      titleAux_idem false _
    unfold lookupStages
    rw [hupT, h1, h2, hclean2, h3, if_neg h4, hTT]

/-- Witness for the amended C10: "orissa" normalizes to "Odisha",
which is a fixed point. -/
theorem c10_amended_witness :
    normalize_state_name (pys "Odisha") = some (pys "Odisha") :=
  c10_amended_idempotent_without_the_prefix (pys "orissa") (pys "Odisha")
    (by decide) (by decide)

/-! ### Helpers for the multi-token containment claim -/

theorem invalid_no_dadra :
    ∀ v ∈ INVALID_STATES, hasSub (pys "DADRA") v = false := by decide

theorem hasSub_upper_strip (tok x : PyStr) (htok : tok ≠ [])
    (hns : ∀ c ∈ tok, isSpaceB c = false)
    (h : hasSub tok (pyUpper x) = true) :
    hasSub tok (pyUpper (pyStrip x)) = true := by
  rw [pyUpper_pyStrip]
  rw [hasSub_iff] at h ⊢
  exact infix_strip tok (pyUpper x) htok hns h

theorem hasSub_strip (tok r : PyStr) (htok : tok ≠ [])
    (hns : ∀ c ∈ tok, isSpaceB c = false)
    (h : hasSub tok r = true) :
    hasSub tok (pyStrip r) = true := by
  rw [hasSub_iff] at h ⊢
  exact infix_strip tok r htok hns h

theorem cleanStr_eq_filter_upper (s : PyStr) :
    cleanStr s = (pyUpper s).filter isAlnumB := by
  induction s with
  | nil => rfl
  | cons c s ih =>
      simp only [cleanStr, pyUpper, List.map_cons, List.filter_cons,
        isAlnumB_upperC] at ih ⊢
      by_cases h : isAlnumB c = true
      · simp only [h, if_pos, List.map_cons]
        exact congrArg _ ih
      · simp only [h, Bool.false_eq_true, if_false]
        exact ih

theorem filter_eq_self_of_all (p : Nat → Bool) (t : List Nat)
    (h : ∀ c ∈ t, p c = true) : t.filter p = t := by
  induction t with
  | nil => rfl
  | cons c t ih =>
      rw [List.filter_cons, if_pos (h c (by simp))]
      rw [ih (fun d hd => h d (by simp [hd]))]

theorem hasSub_filter_alnum (tok s : PyStr)
    (halnum : ∀ c ∈ tok, isAlnumB c = true)
    (h : hasSub tok s = true) :
    hasSub tok (s.filter isAlnumB) = true := by
  rw [hasSub_iff] at h ⊢
  obtain ⟨u, v, rfl⟩ := h
  refine ⟨u.filter isAlnumB, v.filter isAlnumB, ?_⟩
  rw [List.filter_append, List.filter_append,
    filter_eq_self_of_all isAlnumB tok halnum]

theorem hasSub_dadra_after_the (r : PyStr) :
    hasSub (pys "DADRA") (pys "THE " ++ r) = hasSub (pys "DADRA") r := by
  show hasSub [68, 65, 68, 82, 65] (84 :: 72 :: 69 :: 32 :: r) =
    hasSub [68, 65, 68, 82, 65] r
  simp [hasSub, startsWith]

theorem hasSub_nagar_after_the (r : PyStr) :
    hasSub (pys "NAGAR") (pys "THE " ++ r) = hasSub (pys "NAGAR") r := by
  show hasSub [78, 65, 71, 65, 82] (84 :: 72 :: 69 :: 32 :: r) =
    hasSub [78, 65, 71, 65, 82] r
  simp [hasSub, startsWith]

theorem hasSub_haveli_after_the (r : PyStr) :
    hasSub (pys "HAVELI") (pys "THE " ++ r) = hasSub (pys "HAVELI") r := by
  show hasSub [72, 65, 86, 69, 76, 73] (84 :: 72 :: 69 :: 32 :: r) =
    hasSub [72, 65, 86, 69, 76, 73] r
  simp [hasSub, startsWith]

theorem hasSub_daman_after_the (r : PyStr) :
    hasSub (pys "DAMAN") (pys "THE " ++ r) = hasSub (pys "DAMAN") r := by
  show hasSub [68, 65, 77, 65, 78] (84 :: 72 :: 69 :: 32 :: r) =
    hasSub [68, 65, 77, 65, 78] r
  simp [hasSub, startsWith]

theorem hasSub_diu_after_the (r : PyStr) :
    hasSub (pys "DIU") (pys "THE " ++ r) = hasSub (pys "DIU") r := by
  show hasSub [68, 73, 85] (84 :: 72 :: 69 :: 32 :: r) =
    hasSub [68, 73, 85] r
  simp [hasSub, startsWith]

theorem tokens_in_cleaned (x tok : PyStr) (htok : tok ≠ [])
    (hns : ∀ c ∈ tok, isSpaceB c = false)
    (hthe_eq : ∀ r, hasSub tok (pys "THE " ++ r) = hasSub tok r)
    (h : hasSub tok (pyUpper x) = true) :
    hasSub tok (pyUpper (cleaned x)) = true := by
  have hstrip := hasSub_upper_strip tok x htok hns h
  unfold cleaned
  by_cases ht : theTest (pyStrip x) = true
  · rw [if_pos ht]
    unfold theTest at ht
    rw [decide_eq_true_eq] at ht
    have hdecomp : pyUpper (pyStrip x) =
        pys "THE " ++ pyUpper ((pyStrip x).drop 4) := by
      conv_lhs => rw [← List.take_append_drop 4 (pyStrip x)]
      show List.map upperC ((pyStrip x).take 4 ++ (pyStrip x).drop 4) = _
      rw [List.map_append]
      rw [show List.map upperC ((pyStrip x).take 4) = pys "THE " from ht]
      rfl
    rw [hdecomp, hthe_eq] at hstrip
    rw [pyUpper_pyStrip]
    exact hasSub_strip tok _ htok hns hstrip
  · rw [if_neg ht]
    exact hstrip

/-- C6: every input whose uppercase form contains all five of the
substrings DADRA, NAGAR, HAVELI, DAMAN, DIU (in any order, with any
punctuation or spacing) normalizes to the merged union territory
"Dadra and Nagar Haveli and Daman and Diu". -/
theorem c6_multi_token_dadra (x : PyStr)
    (hd1 : hasSub (pys "DADRA") (pyUpper x) = true)
    (hd2 : hasSub (pys "NAGAR") (pyUpper x) = true)
    (hd3 : hasSub (pys "HAVELI") (pyUpper x) = true)
    (hd4 : hasSub (pys "DAMAN") (pyUpper x) = true)
    (hd5 : hasSub (pys "DIU") (pyUpper x) = true) :
    normalize_state_name x = some dadraTarget := by
  have t1 := tokens_in_cleaned x (pys "DADRA") (by decide) (by decide)
    hasSub_dadra_after_the hd1
  have t2 := tokens_in_cleaned x (pys "NAGAR") (by decide) (by decide)
    hasSub_nagar_after_the hd2
  have t3 := tokens_in_cleaned x (pys "HAVELI") (by decide) (by decide)
    hasSub_haveli_after_the hd3
  have t4 := tokens_in_cleaned x (pys "DAMAN") (by decide) (by decide)
    hasSub_daman_after_the hd4
  have t5 := tokens_in_cleaned x (pys "DIU") (by decide) (by decide)
    hasSub_diu_after_the hd5
  have hdt : dadraTest (pyUpper (cleaned x)) = true := by
    unfold dadraTest
    rw [t1, t2, t3, t4, t5]
    rfl
  have hstripD := hasSub_upper_strip (pys "DADRA") x (by decide) (by decide) hd1
  have hinv : pyUpper (pyStrip x) ∉ INVALID_STATES := by
    intro hmem
    have hf := invalid_no_dadra _ hmem
    rw [hstripD] at hf
    cases hf
  have hdig : pyIsDigit (pyStrip x) = false := by
    by_contra hdig
    rw [Bool.not_eq_false] at hdig
    unfold pyIsDigit at hdig
    rw [Bool.and_eq_true] at hdig
    obtain ⟨hne, hall⟩ := hdig
    have hDmem : (68 : Nat) ∈ pyUpper (pyStrip x) := by
      rw [hasSub_iff] at hstripD
      obtain ⟨u, v, hdec⟩ := hstripD
      rw [hdec]
      refine List.mem_append.mpr (Or.inl (List.mem_append.mpr (Or.inr ?_)))
      show (68 : Nat) ∈ pys "DADRA"
      decide
    rw [pyUpper, List.mem_map] at hDmem
    obtain ⟨c, hc, hcup⟩ := hDmem
    have hcd := List.all_eq_true.mp hall c hc
    unfold isDigitB at hcd
    rw [decide_eq_true_eq] at hcd
    unfold upperC at hcup
    split_ifs at hcup <;> omega
  rw [normalize_eq_stages x hinv hdig]
  unfold lookupStages
  cases h1 : tblLookup ABBREVIATIONS (pyUpper (cleaned x)) with
  | some v =>
      exfalso
      have h5 : dadraTest (pyUpper (cleaned x)) = false :=
        abbrev_no_dadra _ (tblLookup_mem _ _ _ h1)
      rw [hdt] at h5
      cases h5
  | none =>
  cases h2 : tblLookup CANONICAL_STATES (pyUpper (cleaned x)) with
  | some v =>
      exfalso
      have h5 : dadraTest (pyUpper (cleaned x)) = false :=
        canonical_no_dadra _ (tblLookup_mem _ _ _ h2)
      rw [hdt] at h5
      cases h5
  | none =>
  cases h3 : tblLookup SPELLING_VARIATIONS (cleanStr (cleaned x)) with
  | some v =>
      exfalso
      have u1 : hasSub (pys "DADRA") (cleanStr (cleaned x)) = true := by
        rw [cleanStr_eq_filter_upper]
        exact hasSub_filter_alnum _ _ (by decide) t1
      have u2 : hasSub (pys "NAGAR") (cleanStr (cleaned x)) = true := by
        rw [cleanStr_eq_filter_upper]
        exact hasSub_filter_alnum _ _ (by decide) t2
      have u3 : hasSub (pys "HAVELI") (cleanStr (cleaned x)) = true := by
        rw [cleanStr_eq_filter_upper]
        exact hasSub_filter_alnum _ _ (by decide) t3
      have u4 : hasSub (pys "DAMAN") (cleanStr (cleaned x)) = true := by
        rw [cleanStr_eq_filter_upper]
        exact hasSub_filter_alnum _ _ (by decide) t4
      have u5 : hasSub (pys "DIU") (cleanStr (cleaned x)) = true := by
        rw [cleanStr_eq_filter_upper]
        exact hasSub_filter_alnum _ _ (by decide) t5
      have hdt2 : dadraTest (cleanStr (cleaned x)) = true := by
        unfold dadraTest
        rw [u1, u2, u3, u4, u5]
        rfl
      have h5 : dadraTest (cleanStr (cleaned x)) = false :=
        variations_no_dadra _ (tblLookup_mem _ _ _ h3)
      rw [hdt2] at h5
      cases h5
  | none =>
  rw [if_pos hdt]

/-- Witness for C6: a permuted, oddly punctuated variant of the
merged-territory name. -/
theorem c6_witness :
    normalize_state_name (pys "DIU, DAMAN; HAVELI-NAGAR-DADRA") =
      some dadraTarget :=
  c6_multi_token_dadra (pys "DIU, DAMAN; HAVELI-NAGAR-DADRA")
    (by decide) (by decide) (by decide) (by decide) (by decide)

/-! ### District normalization claims -/

theorem districtLookup_mem (t : List (String × String)) (k v : String)
    (h : districtLookup t k = some v) : (k, v) ∈ t := by
  induction t with
  | nil => cases h
  | cons p rest ih =>
      cases p with
      | mk k0 v0 =>
          rw [districtLookup] at h
          by_cases hk : k0 = k
          · rw [if_pos hk] at h
            injection h with h
            subst h; subst hk
            exact List.mem_cons_self _ _
          · rw [if_neg hk] at h
            exact List.mem_cons_of_mem _ (ih h)

theorem district_values_canonical_except_aurangabad :
    ∀ p ∈ DISTRICT_NORMALIZATION_MAP, p.2 = "Aurangabad" ∨
      districtLookup DISTRICT_NORMALIZATION_MAP p.2 = none ∨
      districtLookup DISTRICT_NORMALIZATION_MAP p.2 = some p.2 := by decide

/-- C3, counterexample: the district alias table contains a chain.
The keys "Aurangabad(BH)" and "Aurangabad(bh)" map to "Aurangabad",
which is itself a key mapped to the different value
"Chhatrapati Sambhajinagar", so applying the lookup twice differs
from applying it once. -/
theorem c3_counterexample_aurangabad_chain :
    districtLookup DISTRICT_NORMALIZATION_MAP "Aurangabad(BH)" =
      some "Aurangabad" ∧
    districtLookup DISTRICT_NORMALIZATION_MAP "Aurangabad" =
      some "Chhatrapati Sambhajinagar" ∧
    ("Chhatrapati Sambhajinagar" : String) ≠ "Aurangabad" ∧
    normalizeDistrict "Bihar" (normalizeDistrict "Bihar" "Aurangabad(BH)") ≠
      normalizeDistrict "Bihar" "Aurangabad(BH)" :=
  ⟨rfl, rfl, by decide, by decide⟩

/-- C3 (amended): except for the two keys whose target is
"Aurangabad", every alias target is canonical: whenever a district
lookup does not produce "Aurangabad", applying the lookup again leaves
the result unchanged. -/
theorem c3_amended_no_chains_except_aurangabad (s1 s2 x : String)
    (h : normalizeDistrict s1 x ≠ "Aurangabad") :
    normalizeDistrict s2 (normalizeDistrict s1 x) = normalizeDistrict s1 x := by
  cases hl : districtLookup DISTRICT_NORMALIZATION_MAP x with
  | none =>
      have hy : normalizeDistrict s1 x = x := by
        unfold normalizeDistrict
        rw [hl]
      rw [hy]
      unfold normalizeDistrict
      rw [hl]
  | some v =>
      have hy : normalizeDistrict s1 x = v := by
        unfold normalizeDistrict
        rw [hl]
      rw [hy] at h ⊢
      have hmem := districtLookup_mem _ _ _ hl
      rcases district_values_canonical_except_aurangabad _ hmem with h1 | h1 | h1
      · exact absurd h1 h
      · unfold normalizeDistrict
        rw [h1]
      · unfold normalizeDistrict
        rw [h1]

/-- Witness for the amended C3 at a concrete alias. -/
theorem c3_amended_witness :
    normalizeDistrict "Gujarat" (normalizeDistrict "Gujarat" "Ahmadabad") =
      normalizeDistrict "Gujarat" "Ahmadabad" :=
  c3_amended_no_chains_except_aurangabad "Gujarat" "Gujarat" "Ahmadabad"
    (by decide)

/-- C9: district normalization is an exact-string lookup in the flat
alias table with identity fallback, insensitive to the state argument:
both Rangareddy spellings collapse, "Ahmadabad" maps to "Ahmedabad",
and the unseen "Surat" passes through unchanged, for every state. -/
theorem c9_district_lookup_examples (s : String) :
    normalizeDistrict s "K.V.Rangareddy" = "Rangareddy" ∧
    normalizeDistrict s "K.v. Rangareddy" = "Rangareddy" ∧
    normalizeDistrict s "Ahmadabad" = "Ahmedabad" ∧
    normalizeDistrict s "Surat" = "Surat" :=
  ⟨rfl, rfl, rfl, rfl⟩

/-! ### Lexicographic order facts for the enumeration claim -/

theorem strLt_irrefl (a : PyStr) : strLt a a = false := by
  induction a with
  | nil => rfl
  | cons c s ih => simp [strLt, ih]

theorem strLt_antisymm (a b : PyStr) (h1 : strLt a b = false)
    (h2 : strLt b a = false) : a = b := by
  induction a generalizing b with
  | nil =>
      cases b with
      | nil => rfl
      | cons c t => simp [strLt] at h1
  | cons c s ih =>
      cases b with
      | nil => simp [strLt] at h2
      | cons d t =>
          simp only [strLt, Bool.or_eq_false_iff, Bool.and_eq_false_iff,
            decide_eq_false_iff_not, beq_eq_false_iff_ne, Nat.not_lt] at h1 h2
          have hcd : c = d := by omega
          subst hcd
          rcases h1.2 with h | h
          · exact absurd rfl h
          · rcases h2.2 with h2a | h2a
            · exact absurd rfl h2a
            · rw [ih t h h2a]

theorem strLt_trans (a b c : PyStr) (h1 : strLt a b = true)
    (h2 : strLt b c = true) : strLt a c = true := by
  induction a generalizing b c with
  | nil =>
      cases c with
      | nil =>
          cases b with
          | nil => exact h1
          | cons d t => simp [strLt] at h2
      | cons e u => rfl
  | cons x s ih =>
      cases b with
      | nil => simp [strLt] at h1
      | cons d t =>
          cases c with
          | nil => simp [strLt] at h2
          | cons e u =>
              simp only [strLt, Bool.or_eq_true, Bool.and_eq_true,
                decide_eq_true_eq, beq_iff_eq] at h1 h2 ⊢
              rcases h1 with h1 | ⟨h1e, h1r⟩
              · rcases h2 with h2 | ⟨h2e, h2r⟩
                · exact Or.inl (by omega)
                · subst h2e; exact Or.inl h1
              · subst h1e
                rcases h2 with h2 | ⟨h2e, h2r⟩
                · exact Or.inl h2
                · subst h2e
                  exact Or.inr ⟨rfl, ih t u h1r h2r⟩

theorem strLe_total (a b : PyStr) :
    strLe a b = true ∨ strLe b a = true := by
  by_cases h1 : strLt a b = true
  · exact Or.inl (by unfold strLe; rw [h1]; rfl)
  · by_cases h2 : strLt b a = true
    · exact Or.inr (by unfold strLe; rw [h2]; rfl)
    · have := strLt_antisymm a b (eq_false_of_ne_true h1) (eq_false_of_ne_true h2)
      subst this
      exact Or.inl (by unfold strLe; simp)

theorem strLe_trans (a b c : PyStr) (h1 : strLe a b = true)
    (h2 : strLe b c = true) : strLe a c = true := by
  unfold strLe at h1 h2 ⊢
  rw [Bool.or_eq_true] at h1 h2 ⊢
  rw [beq_iff_eq] at h1 h2 ⊢
  rcases h1 with h1 | h1
  · rcases h2 with h2 | h2
    · exact Or.inl (strLt_trans a b c h1 h2)
    · subst h2; exact Or.inl h1
  · subst h1; exact h2

theorem strLt_of_le_of_ne (a b : PyStr) (h : strLe a b = true)
    (hne : a ≠ b) : strLt a b = true := by
  unfold strLe at h
  rw [Bool.or_eq_true, beq_iff_eq] at h
  rcases h with h | h
  · exact h
  · exact absurd h hne

/-! ### Sorting facts -/

theorem mem_insertSorted (a y : PyStr) (l : List PyStr) :
    y ∈ insertSorted a l ↔ y = a ∨ y ∈ l := by
  induction l with
  | nil => simp [insertSorted]
  | cons b l ih =>
      rw [insertSorted]
      by_cases hab : strLe a b = true
      · rw [if_pos hab]
        simp
      · rw [if_neg hab]
        simp only [List.mem_cons, ih]
        tauto

theorem insertSorted_perm (a : PyStr) (l : List PyStr) :
    (insertSorted a l).Perm (a :: l) := by
  induction l with
  | nil => exact List.Perm.refl _
  | cons b l ih =>
      rw [insertSorted]
      by_cases hab : strLe a b = true
      · rw [if_pos hab]
      · rw [if_neg hab]
        exact (List.Perm.cons b ih).trans (List.Perm.swap a b l)

theorem sortStrs_perm (l : List PyStr) : (sortStrs l).Perm l := by
  induction l with
  | nil => exact List.Perm.refl _
  | cons a l ih =>
      rw [sortStrs]
      exact (insertSorted_perm a (sortStrs l)).trans (List.Perm.cons a ih)

theorem pairwise_le_insertSorted (a : PyStr) (l : List PyStr)
    (hl : List.Pairwise (fun u v => strLe u v = true) l) :
    List.Pairwise (fun u v => strLe u v = true) (insertSorted a l) := by
  induction l with
  | nil => simp [insertSorted]
  | cons b l ih =>
      rw [insertSorted]
      rcases List.pairwise_cons.mp hl with ⟨hb, hl2⟩
      by_cases hab : strLe a b = true
      · rw [if_pos hab]
        refine List.pairwise_cons.mpr ⟨?_, hl⟩
        intro y hy
        rcases List.mem_cons.mp hy with rfl | hy2
        · exact hab
        · exact strLe_trans a b y hab (hb y hy2)
      · rw [if_neg hab]
        have hba : strLe b a = true := by
          rcases strLe_total a b with h | h
          · exact absurd h hab
          · exact h
        refine List.pairwise_cons.mpr ⟨?_, ih hl2⟩
        intro y hy
        rcases (mem_insertSorted a y l).mp hy with rfl | hy2
        · exact hba
        · exact hb y hy2

theorem sortStrs_pairwise_le (l : List PyStr) :
    List.Pairwise (fun u v => strLe u v = true) (sortStrs l) := by
  induction l with
  | nil => simp [sortStrs]
  | cons a l ih =>
      rw [sortStrs]
      exact pairwise_le_insertSorted a (sortStrs l) ih

theorem pairwise_lt_of_le_nodup (l : List PyStr)
    (hle : List.Pairwise (fun u v => strLe u v = true) l)
    (hnd : l.Nodup) : List.Pairwise (fun u v => strLt u v = true) l := by
  have hand := List.Pairwise.and hle hnd
  exact hand.imp (fun h => strLt_of_le_of_ne _ _ h.1 h.2)

theorem mem_addState (acc : List PyStr) (st a : PyStr) :
    a ∈ addState acc st ↔ a ∈ acc ∨ normalize_state_name st = some a := by
  unfold addState
  cases hn : normalize_state_name st with
  | none => simp
  | some c =>
      have hcne : c.isEmpty = false := by
        have := normalize_some_ne_nil st c hn
        cases c with
        | nil => exact absurd rfl this
        | cons d l => rfl
      show (a ∈ if c.isEmpty = true then acc
        else if c ∈ acc then acc else acc ++ [c]) ↔ _
      rw [hcne]
      simp only [Bool.false_eq_true, if_false]
      by_cases hmem : c ∈ acc
      · rw [if_pos hmem]
        constructor
        · intro h
          exact Or.inl h
        · rintro (h | h)
          · exact h
          · injection h with h
            subst h
            exact hmem
      · rw [if_neg hmem]
        rw [List.mem_append, List.mem_singleton]
        constructor
        · rintro (h | h)
          · exact Or.inl h
          · exact Or.inr (by rw [h])
        · rintro (h | h)
          · exact Or.inl h
          · injection h with h
            exact Or.inr h.symm

theorem mem_fold_addState (l : List PyStr) (acc : List PyStr) (a : PyStr) :
    a ∈ l.foldl addState acc ↔
      a ∈ acc ∨ ∃ raw ∈ l, normalize_state_name raw = some a := by
  induction l generalizing acc with
  | nil => simp
  | cons st l ih =>
      rw [List.foldl_cons, ih, mem_addState]
      simp only [List.mem_cons]
      constructor
      · rintro ((h | h) | ⟨raw, hr, hn⟩)
        · exact Or.inl h
        · exact Or.inr ⟨st, Or.inl rfl, h⟩
        · exact Or.inr ⟨raw, Or.inr hr, hn⟩
      · rintro (h | ⟨raw, (rfl | hr), hn⟩)
        · exact Or.inl (Or.inl h)
        · exact Or.inl (Or.inr hn)
        · exact Or.inr ⟨raw, hr, hn⟩

theorem nodup_fold_addState (l : List PyStr) (acc : List PyStr)
    (h : acc.Nodup) : (l.foldl addState acc).Nodup := by
  induction l generalizing acc with
  | nil => exact h
  | cons st l ih =>
      rw [List.foldl_cons]
      apply ih
      unfold addState
      cases hn : normalize_state_name st with
      | none => exact h
      | some c =>
          show (if c.isEmpty = true then acc
            else if c ∈ acc then acc else acc ++ [c]).Nodup
          by_cases he : c.isEmpty = true
          · rw [if_pos he]; exact h
          · rw [if_neg he]
            by_cases hm : c ∈ acc
            · rw [if_pos hm]; exact h
            · rw [if_neg hm]
              refine List.Nodup.append h (List.nodup_singleton c) ?_
              intro a ha hb
              rw [List.mem_singleton] at hb
              subst hb
              exact hm ha

/-- C7: `get_all_canonical_states` returns exactly the successful
normalizations of the stored raw values (taken without the
observed-name cross-check, silently dropping invalid rows), strictly
sorted lexicographically (hence deduplicated); on the seed store
{"Uttar Pradesh", "UTTAR PRADESH ", "UP"} it returns exactly
["Uttar Pradesh"]. -/
theorem c7_enumeration_sorted_dedup_drops_invalid (store : List PyStr) :
    (∀ a, a ∈ get_all_canonical_states store ↔
        ∃ raw ∈ store, normalize_state_name raw = some a) ∧
    List.Pairwise (fun u v => strLt u v = true)
      (get_all_canonical_states store) ∧
    get_all_canonical_states
        [pys "Uttar Pradesh", pys "UTTAR PRADESH ", pys "UP"] =
      [pys "Uttar Pradesh"] := by
  refine ⟨?_, ?_, by decide⟩
  · intro a
    unfold get_all_canonical_states
    rw [(sortStrs_perm _).mem_iff, mem_fold_addState]
    simp only [List.not_mem_nil, false_or]
    constructor
    · rintro ⟨raw, hr, hn⟩
      rw [List.mem_filter] at hr
      exact ⟨raw, hr.1, hn⟩
    · rintro ⟨raw, hr, hn⟩
      refine ⟨raw, ?_, hn⟩
      rw [List.mem_filter]
      refine ⟨hr, ?_⟩
      cases raw with
      | nil => rw [normalize_nil] at hn; cases hn
      | cons c l => rfl
  · unfold get_all_canonical_states
    apply pairwise_lt_of_le_nodup
    · exact sortStrs_pairwise_le _
    · exact (sortStrs_perm _).nodup_iff.mpr
        (nodup_fold_addState _ [] List.nodup_nil)
